import Mathlib

set_option maxRecDepth 16384

/-!
Verification of the request-normalization and redirect-templating core of the
open-wallet single-page app (`src/App.tsx`).

The embedding models JavaScript/JSON values as an inductive `Json` type
(JSON numbers are modelled as integers, which covers every value the claims
exercise), JS `undefined` as `Option.none`, and the handful of browser
builtins the core relies on (`decodeURIComponent`, `encodeURIComponent`,
`JSON.parse`, `JSON.stringify`, WHATWG `URL` with `searchParams`) as
executable Lean functions.
-/

namespace OpenWallet

/-- The opening curly brace character, written via its code point. -/
def lbrace : Char := Char.ofNat 123

/-- The closing curly brace character, written via its code point. -/
def rbrace : Char := Char.ofNat 125

/-- JSON values (numbers restricted to integers). -/
inductive Json where
  | null
  | bool (b : Bool)
  | num (n : Int)
  | str (s : String)
  | arr (items : List Json)
  | obj (fields : List (String × Json))

/-- Property lookup on a JS object: `none` models `undefined` (missing key). -/
def jsLookup (fields : List (String × Json)) (key : String) : Option Json :=
  (fields.find? (fun p => p.1 == key)).map (fun p => p.2)

/-- JS `??` (nullish coalescing): falls back on `undefined` (`none`) and `null`. -/
def jsCoalesce (v fb : Option Json) : Option Json :=
  match v with
  | none => fb
  | some Json.null => fb
  | some x => some x

/-- JS truthiness of a JSON value (`null`, `false`, `0`, `""` are falsy). -/
def truthy : Json → Bool
  | Json.null => false
  | Json.bool b => b
  | Json.num n => n != 0
  | Json.str s => s != ""
  | Json.arr _ => true
  | Json.obj _ => true

/-- JS truthiness of a possibly-`undefined` value. -/
def truthyOpt : Option Json → Bool
  | none => false
  | some v => truthy v

/-- JS object-spread update `\x7b...o, key: v\x7d`: replaces the value at an
existing key in place, otherwise appends the key at the end. -/
def objSet (fields : List (String × Json)) (key : String) (v : Json) :
    List (String × Json) :=
  if fields.any (fun p => p.1 == key) then
    fields.map (fun p => if p.1 == key then (key, v) else p)
  else
    fields ++ [(key, v)]

/-- `pat` is an initial segment of `s` (JS `String.prototype.startsWith`
restricted to what the app uses). -/
def leadsWith : List Char → List Char → Bool
  | [], _ => true
  | _ :: _, [] => false
  | p :: ps, c :: cs => p == c && leadsWith ps cs

/-- `containsSeq pat s`: the character sequence `pat` occurs somewhere in `s`
(JS `String.prototype.includes`). -/
def containsSeq (pat : List Char) : List Char → Bool
  | [] => pat.isEmpty
  | c :: rest => leadsWith pat (c :: rest) || containsSeq pat rest

/-- Value of a hexadecimal digit character, if it is one. -/
def hexVal? (c : Char) : Option Nat :=
  if '0' ≤ c ∧ c ≤ '9' then some (c.toNat - 48)
  else if 'a' ≤ c ∧ c ≤ 'f' then some (c.toNat - 87)
  else if 'A' ≤ c ∧ c ≤ 'F' then some (c.toNat - 55)
  else none

/-- Lowercase hex digit for a value below 16. -/
def hexDigitLower (n : Nat) : Char :=
  if n < 10 then Char.ofNat (48 + n) else Char.ofNat (87 + n)

/-- Uppercase hex digit for a value below 16. -/
def hexDigitUpper (n : Nat) : Char :=
  if n < 10 then Char.ofNat (48 + n) else Char.ofNat (55 + n)

/-- Two lowercase hex digits of a byte (the `% 16` on the high digit is a
no-op for values below 256). -/
def byteToHexLower (n : Nat) : List Char :=
  [hexDigitLower (n / 16 % 16), hexDigitLower (n % 16)]

/-- Two uppercase hex digits of a byte (the `% 16` on the high digit is a
no-op for values below 256). -/
def byteToHexUpper (n : Nat) : List Char :=
  [hexDigitUpper (n / 16 % 16), hexDigitUpper (n % 16)]

/-- UTF-8 encoding of a code point. -/
def utf8EncodeNat (n : Nat) : List Nat :=
  if n < 0x80 then [n]
  else if n < 0x800 then
    [0xC0 ||| (n >>> 6), 0x80 ||| (n &&& 0x3F)]
  else if n < 0x10000 then
    [0xE0 ||| (n >>> 12), 0x80 ||| ((n >>> 6) &&& 0x3F), 0x80 ||| (n &&& 0x3F)]
  else
    [0xF0 ||| (n >>> 18), 0x80 ||| ((n >>> 12) &&& 0x3F),
      0x80 ||| ((n >>> 6) &&& 0x3F), 0x80 ||| (n &&& 0x3F)]

/-- UTF-8 bytes of a string. -/
def utf8EncodeStr (s : String) : List Nat :=
  s.data.flatMap (fun c => utf8EncodeNat c.toNat)

/-- The viem `stringToHex` helper: `0x` followed by the lowercase hex of the UTF-8
bytes of the string. -/
def stringToHex (s : String) : String :=
  "0x" ++ String.mk ((utf8EncodeStr s).flatMap byteToHexLower)

/-- JSON string-literal escaping as performed by `JSON.stringify`. -/
def jsonEscapeChar (c : Char) : String :=
  if c = '"' then "\\\""
  else if c = '\\' then "\\\\"
  else if c = Char.ofNat 8 then "\\b"
  else if c = Char.ofNat 12 then "\\f"
  else if c = '\n' then "\\n"
  else if c = Char.ofNat 13 then "\\r"
  else if c = '\t' then "\\t"
  else if c.toNat < 32 then "\\u00" ++ String.mk (byteToHexLower c.toNat)
  else String.singleton c

/-- Escape every character of a string for a JSON string literal. -/
def jsonEscape (s : String) : String :=
  String.join (s.data.map jsonEscapeChar)

mutual

/-- `JSON.stringify` on the `Json` model (no indentation argument).
`safeJsonStringify` in the source only adds a replacer for `bigint` values,
which have no counterpart in the model, so both builtins share this model. -/
def Json.stringifyTop : Json → String
  | Json.null => "null"
  | Json.bool b => if b then "true" else "false"
  | Json.num n => toString n
  | Json.str s => "\"" ++ jsonEscape s ++ "\""
  | Json.arr items => "[" ++ Json.stringifyItems items ++ "]"
  | Json.obj fields => "\x7b" ++ Json.stringifyFields fields ++ "\x7d"

/-- Comma-separated serialization of array elements. -/
def Json.stringifyItems : List Json → String
  | [] => ""
  | [v] => Json.stringifyTop v
  | v :: rest => Json.stringifyTop v ++ "," ++ Json.stringifyItems rest

/-- Comma-separated serialization of object members. -/
def Json.stringifyFields : List (String × Json) → String
  | [] => ""
  | [(k, v)] => "\"" ++ jsonEscape k ++ "\":" ++ Json.stringifyTop v
  | (k, v) :: rest =>
      "\"" ++ jsonEscape k ++ "\":" ++ Json.stringifyTop v ++ "," ++ Json.stringifyFields rest

end

/-- The Request Normalizer (`buildRpcParams` in `src/App.tsx`).
`rawParams = none` models JS `undefined`; `some Json.null` models JS `null`
(the source checks `rawParams == null`, which covers both). -/
def buildRpcParams (method : String) (rawParams : Option Json)
    (fallbackAddress : Option String) : Except String (List Json) :=
  if method = "" then
    Except.error "Missing `method` query param."
  else
    match rawParams with
    | none => Except.error "Missing or invalid `params` query param (expected JSON)."
    | some Json.null =>
        Except.error "Missing or invalid `params` query param (expected JSON)."
    | some (Json.arr items) => Except.ok items
    | some (Json.obj fields) =>
        if method = "eth_sendTransaction" then
          let fromV := jsCoalesce (jsLookup fields "from") (fallbackAddress.map Json.str)
          Except.ok [match fromV with
            | some f => if truthy f then Json.obj (objSet fields "from" f) else Json.obj fields
            | none => Json.obj fields]
        else if method = "wallet_sendCalls" then
          let fromV := jsCoalesce (jsLookup fields "from") (fallbackAddress.map Json.str)
          Except.ok [match fromV with
            | some f => if truthy f then Json.obj (objSet fields "from" f) else Json.obj fields
            | none => Json.obj fields]
        else if method = "personal_sign" then
          let message := jsCoalesce (jsLookup fields "message") (jsLookup fields "data")
          let address := jsCoalesce (jsLookup fields "address") (fallbackAddress.map Json.str)
          match address with
          | none =>
              Except.error
                "personal_sign needs an address (either in params.address or via connected wallet)."
          | some a =>
              if truthy a = false then
                Except.error
                  "personal_sign needs an address (either in params.address or via connected wallet)."
              else
                match message with
                | some (Json.str m) =>
                    Except.ok [Json.str (if leadsWith "0x".data m.data then m else stringToHex m), a]
                | _ =>
                    Except.error
                      "personal_sign needs `params.message` (or `params.data`) as a string."
        else if method = "eth_signTypedData_v4" then
          let address := jsCoalesce (jsLookup fields "address") (fallbackAddress.map Json.str)
          let typedData := jsCoalesce (jsLookup fields "typedData") (jsLookup fields "data")
          match address with
          | none =>
              Except.error
                "eth_signTypedData_v4 needs an address (either in params.address or via connected wallet)."
          | some a =>
              if truthy a = false then
                Except.error
                  "eth_signTypedData_v4 needs an address (either in params.address or via connected wallet)."
              else
                match typedData with
                | none => Except.error "eth_signTypedData_v4 needs `params.typedData` (or `params.data`)."
                | some Json.null =>
                    Except.error "eth_signTypedData_v4 needs `params.typedData` (or `params.data`)."
                | some (Json.str s) => Except.ok [a, Json.str s]
                | some v => Except.ok [a, Json.str (Json.stringifyTop v)]
        else
          Except.ok [Json.obj fields]
    | some _ => Except.error "`params` must be a JSON object or JSON array."

/-- Strict UTF-8 decoding of a byte sequence (rejects truncated sequences,
stray continuation bytes, overlong forms and surrogate code points), as the
`decodeURIComponent` builtin does for escaped bytes. -/
def utf8Decode : List Nat → Option (List Char)
  | [] => some []
  | b :: rest =>
    if b < 0x80 then (utf8Decode rest).map (fun cs => Char.ofNat b :: cs)
    else if 0xC2 ≤ b ∧ b ≤ 0xDF then
      match rest with
      | b2 :: rest2 =>
        if 0x80 ≤ b2 ∧ b2 ≤ 0xBF then
          (utf8Decode rest2).map (fun cs =>
            Char.ofNat (((b &&& 0x1F) <<< 6) ||| (b2 &&& 0x3F)) :: cs)
        else none
      | [] => none
    else if 0xE0 ≤ b ∧ b ≤ 0xEF then
      match rest with
      | b2 :: b3 :: rest2 =>
        if (if b = 0xE0 then 0xA0 else 0x80) ≤ b2 ∧ b2 ≤ (if b = 0xED then 0x9F else 0xBF)
            ∧ 0x80 ≤ b3 ∧ b3 ≤ 0xBF then
          (utf8Decode rest2).map (fun cs =>
            Char.ofNat (((b &&& 0x0F) <<< 12) ||| ((b2 &&& 0x3F) <<< 6) ||| (b3 &&& 0x3F)) :: cs)
        else none
      | _ => none
    else if 0xF0 ≤ b ∧ b ≤ 0xF4 then
      match rest with
      | b2 :: b3 :: b4 :: rest2 =>
        if (if b = 0xF0 then 0x90 else 0x80) ≤ b2 ∧ b2 ≤ (if b = 0xF4 then 0x8F else 0xBF)
            ∧ 0x80 ≤ b3 ∧ b3 ≤ 0xBF ∧ 0x80 ≤ b4 ∧ b4 ≤ 0xBF then
          (utf8Decode rest2).map (fun cs =>
            Char.ofNat (((b &&& 0x07) <<< 18) ||| ((b2 &&& 0x3F) <<< 12)
              ||| ((b3 &&& 0x3F) <<< 6) ||| (b4 &&& 0x3F)) :: cs)
        else none
      | _ => none
    else none

/-- Byte sequence denoted by a percent-encoded string: each `%XX` escape
contributes its byte, any other character contributes its UTF-8 bytes;
fails on a `%` not followed by two hex digits. -/
def pctBytes : List Char → Option (List Nat)
  | [] => some []
  | '%' :: c1 :: c2 :: rest =>
    match hexVal? c1, hexVal? c2 with
    | some h, some l => (pctBytes rest).map (fun bs => (16 * h + l) :: bs)
    | _, _ => none
  | '%' :: _ => none
  | c :: rest => (pctBytes rest).map (fun bs => utf8EncodeNat c.toNat ++ bs)

/-- The `decodeURIComponent` builtin: `none` models a thrown `URIError`. -/
def decodeURIComponent? (s : String) : Option String :=
  (pctBytes s.data).bind (fun bs => (utf8Decode bs).map String.mk)

/-- Characters the `encodeURIComponent` builtin leaves unescaped. -/
def encUnreserved (c : Char) : Bool :=
  c.isAlphanum || c == '-' || c == '_' || c == '.' || c == '!' || c == '~'
    || c == '*' || c == Char.ofNat 39 || c == '(' || c == ')'

/-- The `encodeURIComponent` builtin: unreserved characters pass through,
everything else becomes uppercase `%XX` escapes of its UTF-8 bytes. -/
def encodeURIComponent (s : String) : String :=
  String.mk (s.data.flatMap (fun c =>
    if encUnreserved c then [c]
    else (utf8EncodeNat c.toNat).flatMap (fun b => '%' :: byteToHexUpper b)))

/-- The `maybeDecodeOnce` helper shared by `parseAsUnsafeJson.parse` and
`normalizeRedirectUrl`: decode once as a URI component when the value
contains a `%`, returning the input unchanged when decoding throws. -/
def maybeDecodeOnce (value : String) : String :=
  if value.data.contains '%' then
    match decodeURIComponent? value with
    | some decoded => decoded
    | none => value
  else value

/-- JSON whitespace accepted by `JSON.parse`. -/
def jsonWs (c : Char) : Bool :=
  c == ' ' || c == '\t' || c == '\n' || c == Char.ofNat 13

/-- Drop leading JSON whitespace. -/
def skipWs (cs : List Char) : List Char := cs.dropWhile jsonWs

/-- Parse the body of a JSON string literal (the opening quote already
consumed), returning the decoded characters and the rest of the input. -/
def jpString : List Char → Option (List Char × List Char)
  | [] => none
  | c :: rest =>
    if c == '"' then some ([], rest)
    else if c == '\\' then
      match rest with
      | [] => none
      | e :: rest2 =>
        if e == '"' then (jpString rest2).map (fun p => ('"' :: p.1, p.2))
        else if e == '\\' then (jpString rest2).map (fun p => ('\\' :: p.1, p.2))
        else if e == '/' then (jpString rest2).map (fun p => ('/' :: p.1, p.2))
        else if e == 'b' then (jpString rest2).map (fun p => (Char.ofNat 8 :: p.1, p.2))
        else if e == 'f' then (jpString rest2).map (fun p => (Char.ofNat 12 :: p.1, p.2))
        else if e == 'n' then (jpString rest2).map (fun p => ('\n' :: p.1, p.2))
        else if e == 'r' then (jpString rest2).map (fun p => (Char.ofNat 13 :: p.1, p.2))
        else if e == 't' then (jpString rest2).map (fun p => ('\t' :: p.1, p.2))
        else if e == 'u' then
          match rest2 with
          | h1 :: h2 :: h3 :: h4 :: rest3 =>
            match hexVal? h1, hexVal? h2, hexVal? h3, hexVal? h4 with
            | some a, some b, some c2, some d =>
              let n := ((a * 16 + b) * 16 + c2) * 16 + d
              if n < 55296 ∨ (57343 < n ∧ n < 1114112) then
                (jpString rest3).map (fun p => (Char.ofNat n :: p.1, p.2))
              else none
            | _, _, _, _ => none
          | _ => none
        else none
    else if c.toNat < 32 then none
    else (jpString rest).map (fun p => (c :: p.1, p.2))

/-- Numeric value of a digit sequence. -/
def digitsToNat (ds : List Char) : Nat :=
  ds.foldl (fun acc c => acc * 10 + (c.toNat - 48)) 0

/-- Parse a JSON number. The model restricts JSON numbers to integers, so a
fraction or exponent makes the candidate fail (no claim exercises
non-integer numbers). -/
def jpNumber (cs : List Char) : Option (Json × List Char) :=
  let p :=
    match cs with
    | c :: rest => if c == '-' then (true, rest) else (false, cs)
    | [] => (false, cs)
  let digits := p.2.takeWhile Char.isDigit
  let rest := p.2.dropWhile Char.isDigit
  if digits.isEmpty then none
  else if 1 < digits.length ∧ digits.headD ' ' = '0' then none
  else
    let value : Int := if p.1 then -(digitsToNat digits : Int) else (digitsToNat digits : Int)
    match rest with
    | r :: _ => if r == '.' || r == 'e' || r == 'E' then none else some (Json.num value, rest)
    | [] => some (Json.num value, rest)

mutual

/-- Fueled recursive-descent model of `JSON.parse` (value production). -/
def jpVal : Nat → List Char → Option (Json × List Char)
  | 0, _ => none
  | Nat.succ f, cs =>
    match skipWs cs with
    | [] => none
    | c :: rest =>
      if c == '"' then (jpString rest).map (fun p => (Json.str (String.mk p.1), p.2))
      else if c == '[' then
        match skipWs rest with
        | ']' :: rest2 => some (Json.arr [], rest2)
        | rest2 => (jpItems f rest2).map (fun p => (Json.arr p.1, p.2))
      else if c == lbrace then
        match skipWs rest with
        | c2 :: rest2 =>
          if c2 == rbrace then some (Json.obj [], rest2)
          else (jpFields f (c2 :: rest2)).map (fun p => (Json.obj p.1, p.2))
        | [] => none
      else if c == 't' then
        if leadsWith "rue".data rest then some (Json.bool true, rest.drop 3) else none
      else if c == 'f' then
        if leadsWith "alse".data rest then some (Json.bool false, rest.drop 4) else none
      else if c == 'n' then
        if leadsWith "ull".data rest then some (Json.null, rest.drop 3) else none
      else jpNumber (c :: rest)

/-- Fueled model of `JSON.parse` (non-empty array-element list). -/
def jpItems : Nat → List Char → Option (List Json × List Char)
  | 0, _ => none
  | Nat.succ f, cs =>
    match jpVal f cs with
    | none => none
    | some (v, rest) =>
      match skipWs rest with
      | ',' :: rest2 => (jpItems f rest2).map (fun p => (v :: p.1, p.2))
      | ']' :: rest2 => some ([v], rest2)
      | _ => none

/-- Fueled model of `JSON.parse` (non-empty object-member list). -/
def jpFields : Nat → List Char → Option (List (String × Json) × List Char)
  | 0, _ => none
  | Nat.succ f, cs =>
    match skipWs cs with
    | c :: rest =>
      if c == '"' then
        match jpString rest with
        | some (k, rest2) =>
          match skipWs rest2 with
          | ':' :: rest3 =>
            match jpVal f rest3 with
            | some (v, rest4) =>
              match skipWs rest4 with
              | ',' :: rest5 => (jpFields f rest5).map (fun p => ((String.mk k, v) :: p.1, p.2))
              | c5 :: rest5 => if c5 == rbrace then some ([(String.mk k, v)], rest5) else none
              | [] => none
            | none => none
          | _ => none
        | none => none
      else none
    | [] => none

end

/-- Strict `JSON.parse` on a whole string: `none` models a thrown
`SyntaxError`. The fuel bound is generous enough for any input, since every
recursive step is preceded by consuming at least one character. -/
def jsonTryParse (s : String) : Option Json :=
  match jpVal (2 * s.data.length + 2) s.data with
  | some (v, rest) => if (skipWs rest).isEmpty then some v else none
  | none => none

/-- The Lenient JSON Query Decoder (`parseAsUnsafeJson.parse` in
`src/App.tsx`): try strict JSON parsing on the raw value, the value decoded
once, and the value decoded twice, in that order; `Json.null` doubles as the
JS `null` returned when every candidate fails, exactly as in the source. -/
def parseAsUnsafeJson (query : String) : Json :=
  let candidates := [query, maybeDecodeOnce query, maybeDecodeOnce (maybeDecodeOnce query)]
  (candidates.findSome? jsonTryParse).getD Json.null

/-- The bounded decode loop inside `normalizeRedirectUrl`: up to `n` decode
steps, stopping as soon as a step returns its input unchanged. -/
def decodeLoop : Nat → String → String
  | 0, out => out
  | Nat.succ n, out =>
    let decoded := maybeDecodeOnce out
    if decoded = out then out else decodeLoop n decoded

/-- `normalizeRedirectUrl` in `src/App.tsx`: percent-decode at most twice. -/
def normalizeRedirectUrl (input : String) : String :=
  decodeLoop 2 input

/-- JS `String.prototype.trim`: drop whitespace from both ends. -/
def jsTrim (s : String) : String :=
  String.mk ((s.data.dropWhile Char.isWhitespace).reverse.dropWhile Char.isWhitespace).reverse

/-- The `normalizedRedirectUrl` memo in the `App` component: `none` models
both a missing `redirect_url` query parameter and a normalized value that is
empty after trimming. -/
def normalizedRedirectUrlOf (redirectUrl : Option String) : Option String :=
  match redirectUrl with
  | none => none
  | some s =>
    if s = "" then none
    else
      let normalized := jsTrim (normalizeRedirectUrl s)
      if normalized.length > 0 then some normalized else none

/-- Split at the first occurrence of a separator; `none` when absent. -/
def splitOnFirst (sep : Char) : List Char → List Char × Option (List Char)
  | [] => ([], none)
  | c :: rest =>
    if c == sep then ([], some rest)
    else
      let p := splitOnFirst sep rest
      (c :: p.1, p.2)

/-- Split at every occurrence of a separator. -/
def splitAllOn (sep : Char) : List Char → List (List Char)
  | [] => [[]]
  | c :: rest =>
    if c == sep then [] :: splitAllOn sep rest
    else
      match splitAllOn sep rest with
      | x :: xs => (c :: x) :: xs
      | [] => [[c]]

/-- Fueled worker for lossy UTF-8 decoding. -/
def utf8DecodeLossyGo : Nat → List Nat → List Char
  | 0, _ => []
  | Nat.succ f, bs =>
    match bs with
    | [] => []
    | b :: rest =>
      if b < 0x80 then Char.ofNat b :: utf8DecodeLossyGo f rest
      else if 0xC2 ≤ b ∧ b ≤ 0xDF then
        match rest with
        | b2 :: rest2 =>
          if 0x80 ≤ b2 ∧ b2 ≤ 0xBF then
            Char.ofNat (((b &&& 0x1F) <<< 6) ||| (b2 &&& 0x3F)) :: utf8DecodeLossyGo f rest2
          else Char.ofNat 0xFFFD :: utf8DecodeLossyGo f rest
        | [] => [Char.ofNat 0xFFFD]
      else if 0xE0 ≤ b ∧ b ≤ 0xEF then
        match rest with
        | b2 :: b3 :: rest2 =>
          if (if b = 0xE0 then 0xA0 else 0x80) ≤ b2 ∧ b2 ≤ (if b = 0xED then 0x9F else 0xBF)
              ∧ 0x80 ≤ b3 ∧ b3 ≤ 0xBF then
            Char.ofNat (((b &&& 0x0F) <<< 12) ||| ((b2 &&& 0x3F) <<< 6) ||| (b3 &&& 0x3F))
              :: utf8DecodeLossyGo f rest2
          else Char.ofNat 0xFFFD :: utf8DecodeLossyGo f rest
        | _ => Char.ofNat 0xFFFD :: utf8DecodeLossyGo f rest
      else if 0xF0 ≤ b ∧ b ≤ 0xF4 then
        match rest with
        | b2 :: b3 :: b4 :: rest2 =>
          if (if b = 0xF0 then 0x90 else 0x80) ≤ b2 ∧ b2 ≤ (if b = 0xF4 then 0x8F else 0xBF)
              ∧ 0x80 ≤ b3 ∧ b3 ≤ 0xBF ∧ 0x80 ≤ b4 ∧ b4 ≤ 0xBF then
            Char.ofNat (((b &&& 0x07) <<< 18) ||| ((b2 &&& 0x3F) <<< 12)
                ||| ((b3 &&& 0x3F) <<< 6) ||| (b4 &&& 0x3F)) :: utf8DecodeLossyGo f rest2
          else Char.ofNat 0xFFFD :: utf8DecodeLossyGo f rest
        | _ => Char.ofNat 0xFFFD :: utf8DecodeLossyGo f rest
      else Char.ofNat 0xFFFD :: utf8DecodeLossyGo f rest

/-- Lossy UTF-8 decoding (replacement character on malformed input), as the
lenient `URLSearchParams` query parsing performs. The byte count bounds the
number of decoding steps, so the fuel is always sufficient. -/
def utf8DecodeLossy (bs : List Nat) : List Char :=
  utf8DecodeLossyGo bs.length bs

/-- Bytes of a form-urlencoded query component: `+` is a space, a valid
`%XX` escape is its byte, a malformed escape stays literal (the lenient
`URLSearchParams` parsing, unlike `decodeURIComponent`). -/
def formUrlDecodeBytes : List Char → List Nat
  | [] => []
  | '+' :: rest => 32 :: formUrlDecodeBytes rest
  | '%' :: c1 :: c2 :: rest =>
    match hexVal? c1, hexVal? c2 with
    | some h, some l => (16 * h + l) :: formUrlDecodeBytes rest
    | _, _ => 37 :: formUrlDecodeBytes (c1 :: c2 :: rest)
  | c :: rest => utf8EncodeNat c.toNat ++ formUrlDecodeBytes rest

/-- Decode a form-urlencoded query component to a string. -/
def formUrlDecode (cs : List Char) : String :=
  String.mk (utf8DecodeLossy (formUrlDecodeBytes cs))

/-- Characters `URLSearchParams` serialization leaves unescaped. -/
def formUnreserved (c : Char) : Bool :=
  c.isAlphanum || c == '*' || c == '-' || c == '.' || c == '_'

/-- Form-urlencode a query component (`URLSearchParams` serialization). -/
def formUrlEncode (s : String) : String :=
  String.mk (s.data.flatMap (fun c =>
    if c == ' ' then ['+']
    else if formUnreserved c then [c]
    else (utf8EncodeNat c.toNat).flatMap (fun b => '%' :: byteToHexUpper b)))

/-- Scan the tail of a URL scheme (the first character already accepted),
returning the lowercased scheme including the colon plus the rest. -/
def schemeAux : List Char → List Char → Option (String × String)
  | [], _ => none
  | c :: rest, acc =>
    if c == ':' then some (String.mk (acc ++ [':']), String.mk rest)
    else if c.isAlphanum || c == '+' || c == '-' || c == '.' then
      schemeAux rest (acc ++ [c.toLower])
    else none

/-- Leading URL scheme of a string (WHATWG grammar: an ASCII letter followed
by letters, digits, `+`, `-` or `.`, then a colon), lowercased, with the
remainder of the string. -/
def parseScheme (s : String) : Option (String × String) :=
  match s.data with
  | c :: rest => if c.isAlpha then schemeAux rest [c.toLower] else none
  | [] => none

/-- Parse a raw query string into its key-value pairs, the way
`URLSearchParams` does (split on `&`, drop empty pieces, split each piece at
the first `=`, decode both sides leniently). -/
def parseQueryParams (q : List Char) : List (String × String) :=
  (splitAllOn '&' q).filterMap (fun piece =>
    if piece.isEmpty then none
    else
      let p := splitOnFirst '=' piece
      some (formUrlDecode p.1, formUrlDecode (p.2.getD [])))

/-- Model of a parsed WHATWG `URL`: the protocol (scheme plus colon, as the
`protocol` getter reports it), an uninterpreted serialization of authority and
path, the parsed search parameters, and the fragment. -/
structure JsUrl where
  protocol : String
  core : String
  params : List (String × String)
  fragment : Option String
deriving DecidableEq

/-- `URLSearchParams.set`: replace the value at the first occurrence of the
key and drop later occurrences; append when the key is absent. -/
def setParamList : List (String × String) → String → String → List (String × String)
  | [], k, v => [(k, v)]
  | (k0, v0) :: rest, k, v =>
    if k0 == k then (k, v) :: rest.filter (fun p => p.1 != k)
    else (k0, v0) :: setParamList rest k v

/-- `url.searchParams.set(k, v)` on the URL model. -/
def JsUrl.setParam (u : JsUrl) (k v : String) : JsUrl :=
  { u with params := setParamList u.params k v }

/-- Serialize search parameters (`URLSearchParams.toString`). -/
def serializeParams (ps : List (String × String)) : String :=
  String.intercalate "&" (ps.map (fun p => formUrlEncode p.1 ++ "=" ++ formUrlEncode p.2))

/-- `url.toString()` on the URL model. -/
def JsUrl.toString (u : JsUrl) : String :=
  u.protocol ++ u.core
    ++ (if u.params.isEmpty then "" else "?" ++ serializeParams u.params)
    ++ (match u.fragment with | some f => "#" ++ f | none => "")

/-- `new URL(input, origin)` on the model: an input with its own scheme is
absolute; otherwise it resolves against the origin and inherits the
scheme of the origin. `none` models a thrown `TypeError` (only possible here
when the origin itself has no scheme). -/
def parseJsUrl (input origin : String) : Option JsUrl :=
  let pf := splitOnFirst '#' input.data
  let pq := splitOnFirst '?' pf.1
  let qparams := parseQueryParams (pq.2.getD [])
  let frag := pf.2.map String.mk
  match parseScheme (String.mk pq.1) with
  | some sr => some ⟨sr.1, sr.2, qparams, frag⟩
  | none =>
    match parseScheme origin with
    | some origin2 =>
      let core :=
        match pq.1 with
        | '/' :: _ => origin2.2 ++ String.mk pq.1
        | _ => origin2.2 ++ "/" ++ String.mk pq.1
      some ⟨origin2.1, core, qparams, frag⟩
    | none => none

/-- Fueled worker for `replaceAll` (the fuel only serves termination; every
step consumes at least one character, so `s.length` fuel is enough). -/
def replaceAllGo (pat rep : List Char) : Nat → List Char → List Char
  | 0, s => s
  | Nat.succ f, s =>
    match s with
    | [] => []
    | c :: cs =>
      if pat.isEmpty = false ∧ leadsWith pat (c :: cs) = true then
        rep ++ replaceAllGo pat rep f ((c :: cs).drop pat.length)
      else
        c :: replaceAllGo pat rep f cs

/-- JS `source.split(search).join(replacement)` for a non-empty `search`:
scan left to right, replacing each leftmost non-overlapping occurrence
(the `replaceAll` helper inside `buildRedirectTarget`). -/
def replaceAll (pat rep s : List Char) : List Char :=
  replaceAllGo pat rep s.length s

/-- String-level wrapper for `replaceAll`. -/
def replaceAllS (source search replacement : String) : String :=
  String.mk (replaceAll search.data replacement.data source.data)

/-- The `«result»` placeholder token `\x7b\x7bresult\x7d\x7d`. -/
def tokResult : String := "\x7b\x7bresult\x7d\x7d"

/-- The `«result_raw»` placeholder token. -/
def tokResultRaw : String := "\x7b\x7bresult_raw\x7d\x7d"

/-- The `«resultType»` placeholder token. -/
def tokResultType : String := "\x7b\x7bresultType\x7d\x7d"

/-- The `«error»` placeholder token. -/
def tokError : String := "\x7b\x7berror\x7d\x7d"

/-- The `«error_raw»` placeholder token. -/
def tokErrorRaw : String := "\x7b\x7berror_raw\x7d\x7d"

/-- The redirect payload: `result` is any JSON value (absent = `none`,
modelling JS `undefined`), `error` an optional error message. -/
structure RedirectPayload where
  result : Option Json := none
  error : Option String := none

/-- The `stringifyResult` helper inside `buildRedirectTarget`: a plain
string keeps type `string` and its own text, anything else gets type `json`
and its `JSON.stringify` serialization. Returns `(resultType, result)`. -/
def stringifyResult (value : Json) : String × String :=
  match value with
  | Json.str s => ("string", s)
  | v => ("json", Json.stringifyTop v)

/-- Failures of the Redirect Target Builder: a URL parse failure or the
unsupported-protocol guard, both thrown as errors in the source. -/
inductive RedirectError where
  | invalidUrl
  | unsupportedProtocol (protocol : String)
deriving DecidableEq

/-- Template-mode selection: the input contains the two-character marker. -/
def hasTemplateMarker (s : String) : Bool :=
  containsSeq "\x7b\x7b".data s.data

/-- Replacement value for the `«resultType»` token: `res?.resultType ?? ""`. -/
def tmplResultType (payload : RedirectPayload) : String :=
  match payload.result.map stringifyResult with
  | some r => r.1
  | none => ""

/-- Replacement value for the `«result_raw»` token: `res?.result ?? ""`. -/
def tmplResultRaw (payload : RedirectPayload) : String :=
  match payload.result.map stringifyResult with
  | some r => r.2
  | none => ""

/-- Replacement value for the `«error_raw»` token: `payload.error ?? ""`. -/
def tmplErrorRaw (payload : RedirectPayload) : String :=
  payload.error.getD ""

/-- Replacement value for the `«result»` token: the encoded serialized
result, or empty when no result. -/
def tmplResult (payload : RedirectPayload) : String :=
  match payload.result.map stringifyResult with
  | some r => encodeURIComponent r.2
  | none => ""

/-- Replacement value for the `«error»` token: the encoded error when the
error string is truthy, else empty. -/
def tmplError (payload : RedirectPayload) : String :=
  if payload.error.getD "" = "" then "" else encodeURIComponent (payload.error.getD "")

/-- The five placeholder replacements of template mode, in source order:
`resultType`, `result_raw`, `error_raw`, then `result` and `error`. -/
def substituteTemplate (input : String) (payload : RedirectPayload) : String :=
  let out1 := replaceAllS input tokResultType (tmplResultType payload)
  let out2 := replaceAllS out1 tokResultRaw (tmplResultRaw payload)
  let out3 := replaceAllS out2 tokErrorRaw (tmplErrorRaw payload)
  let out4 := replaceAllS out3 tokResult (tmplResult payload)
  replaceAllS out4 tokError (tmplError payload)

/-- No opening brace occurs in the character list (such a segment can never
contain the start of a placeholder token). -/
def braceFree (s : List Char) : Bool :=
  s.all (fun c => c != lbrace)

/-- `mismatchInside pat part`: the two lists differ at some index where
both are defined (so `pat` cannot lead any extension of `part`). -/
def mismatchInside : List Char → List Char → Bool
  | [], _ => false
  | _ :: _, [] => false
  | p :: ps, c :: cs => (p != c) || mismatchInside ps cs

/-- No occurrence of `pat` can start anywhere inside `chunk`, whatever
follows it: at every start index the mismatch happens within `chunk`. -/
def noMatchStart (chunk pat : List Char) : Bool :=
  (List.range chunk.length).all (fun i => mismatchInside pat (chunk.drop i))

/-- A template segment: a literal piece of the template or one of the five
placeholder tokens. Any template containing placeholders is a
concatenation of such segments, in any order and multiplicity. -/
inductive TmplSeg where
  | lit (s : String)
  | resultType
  | resultRaw
  | errorRaw
  | result
  | error

/-- The text a segment contributes to the template string. -/
def TmplSeg.text : TmplSeg → String
  | TmplSeg.lit s => s
  | TmplSeg.resultType => tokResultType
  | TmplSeg.resultRaw => tokResultRaw
  | TmplSeg.errorRaw => tokErrorRaw
  | TmplSeg.result => tokResult
  | TmplSeg.error => tokError

/-- The text a segment contributes after substitution: a literal is kept,
a token becomes its replacement value for the payload. -/
def TmplSeg.value (payload : RedirectPayload) : TmplSeg → String
  | TmplSeg.lit s => s
  | TmplSeg.resultType => tmplResultType payload
  | TmplSeg.resultRaw => tmplResultRaw payload
  | TmplSeg.errorRaw => tmplErrorRaw payload
  | TmplSeg.result => tmplResult payload
  | TmplSeg.error => tmplError payload

/-- Literal segments must be brace-free (tokens are unconstrained). -/
def TmplSeg.braceOk : TmplSeg → Bool
  | TmplSeg.lit s => braceFree s.data
  | _ => true

/-- Concatenation of a list of strings. -/
def concatSegs : List String → String
  | [] => ""
  | s :: rest => s ++ concatSegs rest

/-- One piece of a single `replaceAll` pass over a segmented string: a
piece equal to the search pattern becomes the replacement, any other piece
is kept. -/
def substPiece (pat rep p : List Char) : List Char :=
  if p = pat then rep else p

/-- The intermediate piece a segment holds after the first `k` of the five
replacement passes: a token is still its own text before its pass and its
replacement value afterwards. -/
def segData (payload : RedirectPayload) (k : Nat) : TmplSeg → List Char
  | TmplSeg.lit s => s.data
  | TmplSeg.resultType => if 1 ≤ k then (tmplResultType payload).data else tokResultType.data
  | TmplSeg.resultRaw => if 2 ≤ k then (tmplResultRaw payload).data else tokResultRaw.data
  | TmplSeg.errorRaw => if 3 ≤ k then (tmplErrorRaw payload).data else tokErrorRaw.data
  | TmplSeg.result => if 4 ≤ k then (tmplResult payload).data else tokResult.data
  | TmplSeg.error => if 5 ≤ k then (tmplError payload).data else tokError.data

/-- Append-mode handling of an error payload: `if (payload.error)` sets the
`error` query parameter (truthiness: only a non-empty message counts). -/
def applyErrorParam (base : JsUrl) (error : Option String) : JsUrl :=
  match error with
  | some e => if e = "" then base else base.setParam "error" e
  | none => base

/-- Append-mode handling of a result payload: when the result is present
(not `undefined`), set `resultType` and `result` query parameters. -/
def applyResultParams (base : JsUrl) (result : Option Json) : JsUrl :=
  match result with
  | some r =>
    let res := stringifyResult r
    (base.setParam "resultType" res.1).setParam "result" res.2
  | none => base

/-- The Redirect Target Builder (`buildRedirectTarget` in `src/App.tsx`),
parameterized by the page origin (`window.location.origin`). -/
def buildRedirectTarget (origin input : String) (payload : RedirectPayload) :
    Except RedirectError String :=
  if hasTemplateMarker input then
    let out := substituteTemplate input payload
    match parseJsUrl out origin with
    | none => Except.error RedirectError.invalidUrl
    | some url =>
      if url.protocol ≠ "http:" ∧ url.protocol ≠ "https:" then
        Except.error (RedirectError.unsupportedProtocol url.protocol)
      else Except.ok url.toString
  else
    match parseJsUrl input origin with
    | none => Except.error RedirectError.invalidUrl
    | some base =>
      if base.protocol ≠ "http:" ∧ base.protocol ≠ "https:" then
        Except.error (RedirectError.unsupportedProtocol base.protocol)
      else
        Except.ok (JsUrl.toString (applyResultParams (applyErrorParam base payload.error)
          payload.result))

/-! Helper lemmas about the JS object model. -/

theorem jsCoalesce_some_of_truthy (f : Json) (fb : Option Json) (h : truthy f = true) :
    jsCoalesce (some f) fb = some f := by
  cases f <;> simp_all [jsCoalesce, truthy]

theorem jsLookup_nil (k : String) : jsLookup ([] : List (String × Json)) k = none := rfl

theorem jsLookup_cons (hd : String × Json) (tl : List (String × Json)) (k : String) :
    jsLookup (hd :: tl) k = if (hd.1 == k) = true then some hd.2 else jsLookup tl k := by
  by_cases h : (hd.1 == k) = true
  · simp [jsLookup, List.find?_cons, h]
  · have hf : (hd.1 == k) = false := by simpa using h
    simp [jsLookup, List.find?_cons, hf]

theorem lookup_map_subst (key : String) (v : Json) :
    ∀ fields : List (String × Json), fields.any (fun p => p.1 == key) = true →
      jsLookup (fields.map (fun p => if p.1 == key then (key, v) else p)) key = some v := by
  intro fields
  induction fields with
  | nil => intro h; simp at h
  | cons hd tl ih =>
    intro h
    simp only [List.map_cons]
    by_cases hk : (hd.1 == key) = true
    · rw [if_pos hk, jsLookup_cons]
      simp
    · rw [if_neg hk, jsLookup_cons, if_neg hk]
      have hk2 : (hd.1 == key) = false := by simpa using hk
      have h2 : tl.any (fun p => p.1 == key) = true := by
        rw [List.any_cons, hk2, Bool.false_or] at h
        exact h
      exact ih h2

theorem lookup_append_new (key : String) (v : Json) :
    ∀ fields : List (String × Json), fields.any (fun p => p.1 == key) = false →
      jsLookup (fields ++ [(key, v)]) key = some v := by
  intro fields
  induction fields with
  | nil =>
    intro _
    rw [List.nil_append, jsLookup_cons]
    simp
  | cons hd tl ih =>
    intro h
    rw [List.any_cons, Bool.or_eq_false_iff] at h
    rw [List.cons_append, jsLookup_cons, if_neg (by simp [h.1])]
    exact ih h.2

theorem lookup_map_subst_other (key : String) (v : Json) (k : String) (h : k ≠ key) :
    ∀ fields : List (String × Json),
      jsLookup (fields.map (fun p => if p.1 == key then (key, v) else p)) k
        = jsLookup fields k := by
  intro fields
  induction fields with
  | nil => rfl
  | cons hd tl ih =>
    simp only [List.map_cons]
    by_cases hk : (hd.1 == key) = true
    · have hkeq : hd.1 = key := by simpa using hk
      have hkey : (key == k) = false :=
        beq_eq_false_iff_ne.mpr (fun hc => h hc.symm)
      have hhd : (hd.1 == k) = false := by
        rw [hkeq]
        exact hkey
      rw [if_pos hk, jsLookup_cons, jsLookup_cons]
      simp only [hkey, hhd]
      exact ih
    · rw [if_neg hk, jsLookup_cons, jsLookup_cons]
      by_cases hdk : (hd.1 == k) = true
      · rw [if_pos hdk, if_pos hdk]
      · rw [if_neg hdk, if_neg hdk]
        exact ih

theorem lookup_append_other (key : String) (v : Json) (k : String) (h : k ≠ key) :
    ∀ fields : List (String × Json), jsLookup (fields ++ [(key, v)]) k = jsLookup fields k := by
  intro fields
  induction fields with
  | nil =>
    have hkey : (key == k) = false :=
      beq_eq_false_iff_ne.mpr (fun hc => h hc.symm)
    rw [List.nil_append, jsLookup_cons, if_neg (by simp [hkey]), jsLookup_nil]
  | cons hd tl ih =>
    rw [List.cons_append, jsLookup_cons, jsLookup_cons]
    by_cases hdk : (hd.1 == k) = true
    · rw [if_pos hdk, if_pos hdk]
    · rw [if_neg hdk, if_neg hdk]
      exact ih

theorem jsLookup_objSet_self (fields : List (String × Json)) (key : String) (v : Json) :
    jsLookup (objSet fields key v) key = some v := by
  unfold objSet
  cases hAny : fields.any (fun p => p.1 == key) with
  | true =>
    rw [if_pos rfl]
    exact lookup_map_subst key v fields hAny
  | false =>
    rw [if_neg Bool.false_ne_true]
    exact lookup_append_new key v fields hAny

theorem jsLookup_objSet_other (fields : List (String × Json)) (key : String) (v : Json)
    (k : String) (h : k ≠ key) :
    jsLookup (objSet fields key v) k = jsLookup fields k := by
  unfold objSet
  cases hAny : fields.any (fun p => p.1 == key) with
  | true =>
    rw [if_pos rfl]
    exact lookup_map_subst_other key v k h fields
  | false =>
    rw [if_neg Bool.false_ne_true]
    exact lookup_append_other key v k h fields

/-! Claim theorems for the Request Normalizer. -/

/-- Claim C6: `buildRpcParams` validates in a fixed order where the first
failing check wins, each failure with its distinct message: an empty method
yields the missing-method error regardless of the params; otherwise a
nullish `rawParams` (JS `undefined` or `null`) yields the
missing-or-invalid-params error; otherwise an array is passed through
verbatim as the parameter list for every method and fallback address; and a
non-object non-array value yields the params-type error. -/
theorem c6_validation_order :
    (∀ rawParams fallbackAddress,
      buildRpcParams "" rawParams fallbackAddress =
        Except.error "Missing `method` query param.")
    ∧ (∀ method fallbackAddress, method ≠ "" →
        buildRpcParams method none fallbackAddress =
          Except.error "Missing or invalid `params` query param (expected JSON)."
        ∧ buildRpcParams method (some Json.null) fallbackAddress =
          Except.error "Missing or invalid `params` query param (expected JSON).")
    ∧ (∀ method fallbackAddress items, method ≠ "" →
        buildRpcParams method (some (Json.arr items)) fallbackAddress = Except.ok items)
    ∧ (∀ method fallbackAddress, method ≠ "" →
        (∀ s, buildRpcParams method (some (Json.str s)) fallbackAddress =
          Except.error "`params` must be a JSON object or JSON array.")
        ∧ (∀ n, buildRpcParams method (some (Json.num n)) fallbackAddress =
          Except.error "`params` must be a JSON object or JSON array.")
        ∧ (∀ b, buildRpcParams method (some (Json.bool b)) fallbackAddress =
          Except.error "`params` must be a JSON object or JSON array.")) := by
  refine ⟨?_, ?_, ?_, ?_⟩
  · intro rawParams fb
    simp [buildRpcParams]
  · intro m fb h
    exact ⟨by simp [buildRpcParams, h], by simp [buildRpcParams, h]⟩
  · intro m fb items h
    simp [buildRpcParams, h]
  · intro m fb h
    exact ⟨fun s => by simp [buildRpcParams, h],
      fun n => by simp [buildRpcParams, h],
      fun b => by simp [buildRpcParams, h]⟩

/-- Witness for C6 at concrete inputs. -/
theorem c6_witness :
    buildRpcParams "eth_call" none none =
      Except.error "Missing or invalid `params` query param (expected JSON)."
    ∧ buildRpcParams "eth_call" (some (Json.arr [Json.num 1])) none = Except.ok [Json.num 1]
    ∧ buildRpcParams "eth_call" (some (Json.str "x")) none =
      Except.error "`params` must be a JSON object or JSON array." :=
  ⟨(c6_validation_order.2.1 "eth_call" none (by decide)).1,
   c6_validation_order.2.2.1 "eth_call" none [Json.num 1] (by decide),
   (c6_validation_order.2.2.2 "eth_call" none (by decide)).1 "x"⟩

/-- Claim C3: `buildRpcParams "personal_sign"` takes the message from
`rawParams.message` (falling back to `rawParams.data`) and the address from
`rawParams.address` (falling back to `fallbackAddress`); it returns the
address-missing error when no address resolves (the resolved value is
absent or falsy), the message-must-be-string error when the resolved
message is not a string, and otherwise `ok` with params
`[hexMessage, address]` where `hexMessage` is the message unchanged when it
starts with `0x` and its UTF-8-byte hex encoding otherwise; in particular
`\x7bmessage:"hello"\x7d` with fallback `0xABC` yields
`["0x68656c6c6f", "0xABC"]`. -/
theorem c3_personal_sign :
    (∀ (fields : List (String × Json)) (fb : Option String),
      (truthyOpt (jsCoalesce (jsLookup fields "address") (Option.map Json.str fb)) = false →
        buildRpcParams "personal_sign" (some (Json.obj fields)) fb =
          Except.error
            "personal_sign needs an address (either in params.address or via connected wallet).")
      ∧ (∀ a, jsCoalesce (jsLookup fields "address") (Option.map Json.str fb) = some a →
          truthy a = true →
          (∀ m, jsCoalesce (jsLookup fields "message") (jsLookup fields "data")
            ≠ some (Json.str m)) →
          buildRpcParams "personal_sign" (some (Json.obj fields)) fb =
            Except.error "personal_sign needs `params.message` (or `params.data`) as a string.")
      ∧ (∀ a m, jsCoalesce (jsLookup fields "address") (Option.map Json.str fb) = some a →
          truthy a = true →
          jsCoalesce (jsLookup fields "message") (jsLookup fields "data")
            = some (Json.str m) →
          buildRpcParams "personal_sign" (some (Json.obj fields)) fb =
            Except.ok [Json.str (if leadsWith "0x".data m.data then m else stringToHex m), a]))
    ∧ buildRpcParams "personal_sign" (some (Json.obj [("message", Json.str "hello")]))
        (some "0xABC")
        = Except.ok [Json.str "0x68656c6c6f", Json.str "0xABC"] := by
  refine ⟨?_, by rfl⟩
  intro fields fb
  refine ⟨?_, ?_, ?_⟩
  · intro hfalse
    simp only [buildRpcParams]
    rcases hv : jsCoalesce (jsLookup fields "address") (Option.map Json.str fb) with _ | a
    · simp
    · rw [hv] at hfalse
      simp only [truthyOpt] at hfalse
      simp [hfalse]
  · intro a hA hT hM
    simp only [buildRpcParams]
    rw [hA]
    rcases hv : jsCoalesce (jsLookup fields "message") (jsLookup fields "data") with _ | v
    · simp [hT]
    · cases v with
      | str s => exact absurd hv (hM s)
      | null => simp [hT]
      | bool b => simp [hT]
      | num n => simp [hT]
      | arr l => simp [hT]
      | obj o => simp [hT]
  · intro a m hA hT hM
    simp only [buildRpcParams]
    rw [hA, hM]
    simp [hT]

/-- Witness for C3: the address-missing and message-not-a-string failure
branches at concrete inputs. -/
theorem c3_witness :
    buildRpcParams "personal_sign" (some (Json.obj [("message", Json.str "hello")])) none =
      Except.error
        "personal_sign needs an address (either in params.address or via connected wallet)."
    ∧ buildRpcParams "personal_sign" (some (Json.obj [("address", Json.str "0xABC"),
        ("message", Json.num 5)])) none =
      Except.error "personal_sign needs `params.message` (or `params.data`) as a string." :=
  ⟨(c3_personal_sign.1 [("message", Json.str "hello")] none).1 (by rfl),
   (c3_personal_sign.1 [("address", Json.str "0xABC"), ("message", Json.num 5)] none).2.1
     (Json.str "0xABC") (by rfl) (by rfl)
     (fun m hm => by simp [jsCoalesce, jsLookup, List.find?] at hm)⟩

/-- Claim C4: for a plain-object `rawParams`, `buildRpcParams` with
`eth_sendTransaction` (and identically `wallet_sendCalls`) always returns
`ok` with a single-element list containing a copy of the object whose
`from` field is `rawParams.from` when present (non-nullish), else the
fallback address when provided; when neither resolves to a truthy value the
object passes through unchanged, with no `from` key added. -/
theorem c4_sendTransaction_from :
    (∀ (fields : List (String × Json)) (fb : Option String),
      buildRpcParams "eth_sendTransaction" (some (Json.obj fields)) fb =
        Except.ok [match jsCoalesce (jsLookup fields "from") (Option.map Json.str fb) with
          | some f => if truthy f then Json.obj (objSet fields "from" f) else Json.obj fields
          | none => Json.obj fields]
      ∧ buildRpcParams "wallet_sendCalls" (some (Json.obj fields)) fb =
        Except.ok [match jsCoalesce (jsLookup fields "from") (Option.map Json.str fb) with
          | some f => if truthy f then Json.obj (objSet fields "from" f) else Json.obj fields
          | none => Json.obj fields])
    ∧ (∀ (fields : List (String × Json)) (fb : Option String) (f : Json),
        jsLookup fields "from" = some f → truthy f = true →
        buildRpcParams "eth_sendTransaction" (some (Json.obj fields)) fb =
          Except.ok [Json.obj (objSet fields "from" f)]
        ∧ jsLookup (objSet fields "from" f) "from" = some f
        ∧ ∀ k, k ≠ "from" → jsLookup (objSet fields "from" f) k = jsLookup fields k)
    ∧ (∀ (fields : List (String × Json)) (s : String),
        jsLookup fields "from" = none → s ≠ "" →
        buildRpcParams "eth_sendTransaction" (some (Json.obj fields)) (some s) =
          Except.ok [Json.obj (objSet fields "from" (Json.str s))])
    ∧ (∀ (fields : List (String × Json)) (fb : Option String),
        jsCoalesce (jsLookup fields "from") (Option.map Json.str fb) = none →
        buildRpcParams "eth_sendTransaction" (some (Json.obj fields)) fb =
          Except.ok [Json.obj fields]) := by
  refine ⟨fun fields fb => ⟨rfl, rfl⟩, ?_, ?_, ?_⟩
  · intro fields fb f hF hT
    have hChain : jsCoalesce (jsLookup fields "from") (Option.map Json.str fb) = some f := by
      rw [hF]
      exact jsCoalesce_some_of_truthy f _ hT
    refine ⟨?_, jsLookup_objSet_self fields "from" f,
      fun k hk => jsLookup_objSet_other fields "from" f k hk⟩
    simp only [buildRpcParams]
    rw [hChain]
    simp [hT]
  · intro fields s hF hs
    have hChain : jsCoalesce (jsLookup fields "from") (Option.map Json.str (some s))
        = some (Json.str s) := by
      rw [hF]
      rfl
    simp only [buildRpcParams]
    rw [hChain]
    simp [truthy, hs]
  · intro fields fb hChain
    simp only [buildRpcParams]
    rw [hChain]
    simp

/-- Witness for C4: the fallback-address, explicit-`from`, and
no-address-at-all cases at concrete inputs. -/
theorem c4_witness :
    buildRpcParams "eth_sendTransaction" (some (Json.obj [("to", Json.str "0xT")]))
      (some "0xA") = Except.ok [Json.obj [("to", Json.str "0xT"), ("from", Json.str "0xA")]]
    ∧ buildRpcParams "eth_sendTransaction"
        (some (Json.obj [("from", Json.str "0xF"), ("to", Json.str "0xT")])) (some "0xA")
      = Except.ok [Json.obj [("from", Json.str "0xF"), ("to", Json.str "0xT")]]
    ∧ buildRpcParams "eth_sendTransaction" (some (Json.obj [("to", Json.str "0xT")])) none
      = Except.ok [Json.obj [("to", Json.str "0xT")]] :=
  ⟨c4_sendTransaction_from.2.2.1 [("to", Json.str "0xT")] "0xA" (by rfl) (by decide),
   (c4_sendTransaction_from.2.1 [("from", Json.str "0xF"), ("to", Json.str "0xT")]
     (some "0xA") (Json.str "0xF") (by rfl) (by decide)).1,
   c4_sendTransaction_from.2.2.2 [("to", Json.str "0xT")] none (by rfl)⟩

/-- Claim C7: `buildRpcParams "eth_signTypedData_v4"` resolves the address
from `rawParams.address` falling back to `fallbackAddress` and the typed
data from `rawParams.typedData` falling back to `rawParams.data`; it errors
when the address is missing, errors when the typed-data value is nullish,
uses a string typed-data value verbatim and JSON-serializes any other
value, returning `[address, typedDataJsonString]` with the address first;
in particular `\x7baddress:"0xABC", typedData:\x7ba:1\x7d\x7d` yields
`["0xABC", "\x7b\"a\":1\x7d"]`. -/
theorem c7_sign_typed_data :
    (∀ (fields : List (String × Json)) (fb : Option String),
      (truthyOpt (jsCoalesce (jsLookup fields "address") (Option.map Json.str fb)) = false →
        buildRpcParams "eth_signTypedData_v4" (some (Json.obj fields)) fb =
          Except.error
            "eth_signTypedData_v4 needs an address (either in params.address or via connected wallet).")
      ∧ (∀ a, jsCoalesce (jsLookup fields "address") (Option.map Json.str fb) = some a →
          truthy a = true →
          (jsCoalesce (jsLookup fields "typedData") (jsLookup fields "data") = none ∨
            jsCoalesce (jsLookup fields "typedData") (jsLookup fields "data")
              = some Json.null) →
          buildRpcParams "eth_signTypedData_v4" (some (Json.obj fields)) fb =
            Except.error "eth_signTypedData_v4 needs `params.typedData` (or `params.data`).")
      ∧ (∀ a s, jsCoalesce (jsLookup fields "address") (Option.map Json.str fb) = some a →
          truthy a = true →
          jsCoalesce (jsLookup fields "typedData") (jsLookup fields "data")
            = some (Json.str s) →
          buildRpcParams "eth_signTypedData_v4" (some (Json.obj fields)) fb =
            Except.ok [a, Json.str s])
      ∧ (∀ a v, jsCoalesce (jsLookup fields "address") (Option.map Json.str fb) = some a →
          truthy a = true →
          jsCoalesce (jsLookup fields "typedData") (jsLookup fields "data") = some v →
          v ≠ Json.null → (∀ s, v ≠ Json.str s) →
          buildRpcParams "eth_signTypedData_v4" (some (Json.obj fields)) fb =
            Except.ok [a, Json.str (Json.stringifyTop v)]))
    ∧ buildRpcParams "eth_signTypedData_v4"
        (some (Json.obj [("address", Json.str "0xABC"),
          ("typedData", Json.obj [("a", Json.num 1)])])) none
      = Except.ok [Json.str "0xABC", Json.str "\x7b\"a\":1\x7d"] := by
  refine ⟨?_, by rfl⟩
  intro fields fb
  refine ⟨?_, ?_, ?_, ?_⟩
  · intro hfalse
    simp only [buildRpcParams]
    rcases hv : jsCoalesce (jsLookup fields "address") (Option.map Json.str fb) with _ | a
    · simp
    · rw [hv] at hfalse
      simp only [truthyOpt] at hfalse
      simp [hfalse]
  · intro a hA hT hTD
    simp only [buildRpcParams]
    rw [hA]
    rcases hTD with hTD | hTD
    · rw [hTD]
      simp [hT]
    · rw [hTD]
      simp [hT]
  · intro a s hA hT hTD
    simp only [buildRpcParams]
    rw [hA, hTD]
    simp [hT]
  · intro a v hA hT hTD hNull hStr
    simp only [buildRpcParams]
    rw [hA, hTD]
    cases v with
    | null => exact absurd rfl hNull
    | str s => exact absurd rfl (hStr s)
    | bool b => simp [hT]
    | num n => simp [hT]
    | arr l => simp [hT]
    | obj o => simp [hT]

/-- Witness for C7: the address-missing and missing-typed-data failure
branches at concrete inputs. -/
theorem c7_witness :
    buildRpcParams "eth_signTypedData_v4"
      (some (Json.obj [("typedData", Json.num 1)])) none =
      Except.error
        "eth_signTypedData_v4 needs an address (either in params.address or via connected wallet)."
    ∧ buildRpcParams "eth_signTypedData_v4"
        (some (Json.obj [("address", Json.str "0xABC")])) none =
      Except.error "eth_signTypedData_v4 needs `params.typedData` (or `params.data`)." :=
  ⟨(c7_sign_typed_data.1 [("typedData", Json.num 1)] none).1 (by rfl),
   (c7_sign_typed_data.1 [("address", Json.str "0xABC")] none).2.1
     (Json.str "0xABC") (by rfl) (by rfl) (Or.inl (by rfl))⟩

/-! Claim theorems for the Lenient JSON Query Decoder and redirect-URL
normalization. -/

/-- Claim C5: the lenient decoder builds three candidates — the raw value,
the value percent-decoded once (only attempted when it contains `%`, with
decode failures leaving the candidate unchanged), and the value decoded
twice — attempts strict JSON parsing on each in order, returning the first
success, or null when none parses; the single-encoded value
`%7B%22a%22%3A1%7D` and its double-encoded form both decode to the object
`\x7ba:1\x7d`, and un-encoded invalid JSON yields null. -/
theorem c5_lenient_json_decoder :
    (∀ s, s.data.contains '%' = false → maybeDecodeOnce s = s)
    ∧ (∀ s, decodeURIComponent? s = none → maybeDecodeOnce s = s)
    ∧ (∀ s d, decodeURIComponent? s = some d → s.data.contains '%' = true →
        maybeDecodeOnce s = d)
    ∧ (∀ q v, jsonTryParse q = some v → parseAsUnsafeJson q = v)
    ∧ (∀ q v, jsonTryParse q = none → jsonTryParse (maybeDecodeOnce q) = some v →
        parseAsUnsafeJson q = v)
    ∧ (∀ q v, jsonTryParse q = none → jsonTryParse (maybeDecodeOnce q) = none →
        jsonTryParse (maybeDecodeOnce (maybeDecodeOnce q)) = some v →
        parseAsUnsafeJson q = v)
    ∧ (∀ q, jsonTryParse q = none → jsonTryParse (maybeDecodeOnce q) = none →
        jsonTryParse (maybeDecodeOnce (maybeDecodeOnce q)) = none →
        parseAsUnsafeJson q = Json.null)
    ∧ parseAsUnsafeJson "%7B%22a%22%3A1%7D" = Json.obj [("a", Json.num 1)]
    ∧ parseAsUnsafeJson "%257B%2522a%2522%253A1%257D" = Json.obj [("a", Json.num 1)]
    ∧ parseAsUnsafeJson "\x7ba:1\x7d" = Json.null := by
  refine ⟨?_, ?_, ?_, ?_, ?_, ?_, ?_, by rfl, by rfl, by rfl⟩
  · intro s h
    unfold maybeDecodeOnce
    rw [if_neg (by rw [h]; exact Bool.false_ne_true)]
  · intro s h
    simp [maybeDecodeOnce, h]
  · intro s d h hp
    unfold maybeDecodeOnce
    rw [if_pos hp, h]
  · intro q v h
    simp [parseAsUnsafeJson, List.findSome?_cons, h]
  · intro q v h1 h2
    simp [parseAsUnsafeJson, List.findSome?_cons, h1, h2]
  · intro q v h1 h2 h3
    simp [parseAsUnsafeJson, List.findSome?_cons, h1, h2, h3]
  · intro q h1 h2 h3
    simp [parseAsUnsafeJson, List.findSome?_cons, h1, h2, h3]

/-- Witness for C5: the first-candidate success at a concrete input. -/
theorem c5_witness :
    parseAsUnsafeJson "[1,2]" = Json.arr [Json.num 1, Json.num 2] :=
  c5_lenient_json_decoder.2.2.2.1 "[1,2]" (Json.arr [Json.num 1, Json.num 2]) (by rfl)

/-- Claim C9: the raw `redirect_url` value is percent-decoded at most two
times, stopping as soon as a decode step returns its input unchanged (which
covers values without `%` and failing decodes, since `maybeDecodeOnce`
returns its input in those cases), then trimmed; an empty trimmed result
means no redirect is requested (`none`). The concrete triple-encoded value
`%252541` stops after exactly two decodes. -/
theorem c9_redirect_normalization :
    (∀ s, normalizeRedirectUrl s =
      if maybeDecodeOnce s = s then s else maybeDecodeOnce (maybeDecodeOnce s))
    ∧ (∀ r, jsTrim (normalizeRedirectUrl r) = "" → normalizedRedirectUrlOf (some r) = none)
    ∧ (∀ r, jsTrim (normalizeRedirectUrl r) ≠ "" →
        normalizedRedirectUrlOf (some r) = some (jsTrim (normalizeRedirectUrl r)))
    ∧ normalizedRedirectUrlOf none = none
    ∧ normalizeRedirectUrl "%252541" = "%41"
    ∧ normalizedRedirectUrlOf (some "   ") = none := by
  refine ⟨?_, ?_, ?_, by rfl, by rfl, by rfl⟩
  · intro s
    by_cases h1 : maybeDecodeOnce s = s
    · simp [normalizeRedirectUrl, decodeLoop, h1]
    · by_cases h2 : maybeDecodeOnce (maybeDecodeOnce s) = maybeDecodeOnce s
      · simp [normalizeRedirectUrl, decodeLoop, h1, h2]
      · simp [normalizeRedirectUrl, decodeLoop, h1, h2]
  · intro r h
    by_cases hr : r = ""
    · simp [normalizedRedirectUrlOf, hr]
    · simp [normalizedRedirectUrlOf, hr, h]
  · intro r h
    by_cases hr : r = ""
    · exfalso
      apply h
      rw [hr]
      rfl
    · have hlen : (jsTrim (normalizeRedirectUrl r)).length > 0 := by
        rcases ht : jsTrim (normalizeRedirectUrl r) with ⟨tdata⟩
        cases tdata with
        | nil => exact absurd ht h
        | cons c cs => simp [String.length]
      simp [normalizedRedirectUrlOf, hr, hlen]

/-- Witness for C9: whitespace is trimmed and a non-empty normalized value
is kept. -/
theorem c9_witness :
    normalizedRedirectUrlOf (some " https://x ") = some "https://x" :=
  (c9_redirect_normalization.2.2.1 " https://x " (by decide)).trans (by rfl)

/-! Claim theorems for the Redirect Target Builder. -/

theorem setParam_protocol (u : JsUrl) (k v : String) :
    (JsUrl.setParam u k v).protocol = u.protocol := rfl

theorem applyErrorParam_protocol (b : JsUrl) (e : Option String) :
    (applyErrorParam b e).protocol = b.protocol := by
  cases e with
  | none => rfl
  | some e0 =>
    unfold applyErrorParam
    dsimp only
    by_cases he : e0 = ""
    · rw [if_pos he]
    · rw [if_neg he]
      rfl

theorem applyParams_protocol (b : JsUrl) (e : Option String) (r : Option Json) :
    (applyResultParams (applyErrorParam b e) r).protocol = b.protocol := by
  cases r with
  | none => exact applyErrorParam_protocol b e
  | some v =>
    show (((applyErrorParam b e).setParam "resultType" (stringifyResult v).1).setParam
      "result" (stringifyResult v).2).protocol = b.protocol
    rw [setParam_protocol, setParam_protocol]
    exact applyErrorParam_protocol b e

theorem JsUrl_toString_decomp (u : JsUrl) : ∃ rest, u.toString = u.protocol ++ rest :=
  ⟨u.core ++ (if u.params.isEmpty then "" else "?" ++ serializeParams u.params)
      ++ (match u.fragment with | some f => "#" ++ f | none => ""),
    by unfold JsUrl.toString; simp only [String.append_assoc]⟩

theorem buildRedirectTarget_template_eq (origin input : String) (payload : RedirectPayload)
    (hm : hasTemplateMarker input = true) :
    buildRedirectTarget origin input payload =
      match parseJsUrl (substituteTemplate input payload) origin with
      | none => Except.error RedirectError.invalidUrl
      | some url =>
        if url.protocol ≠ "http:" ∧ url.protocol ≠ "https:" then
          Except.error (RedirectError.unsupportedProtocol url.protocol)
        else Except.ok url.toString := by
  unfold buildRedirectTarget
  rw [if_pos hm]

theorem buildRedirectTarget_append_eq (origin input : String) (payload : RedirectPayload)
    (hm : hasTemplateMarker input = false) :
    buildRedirectTarget origin input payload =
      match parseJsUrl input origin with
      | none => Except.error RedirectError.invalidUrl
      | some base =>
        if base.protocol ≠ "http:" ∧ base.protocol ≠ "https:" then
          Except.error (RedirectError.unsupportedProtocol base.protocol)
        else Except.ok (JsUrl.toString (applyResultParams (applyErrorParam base payload.error)
          payload.result)) := by
  unfold buildRedirectTarget
  rw [if_neg (by rw [hm]; exact Bool.false_ne_true)]

/-- Claim C1: for every template string and payload, `buildRedirectTarget`
parses the (substituted, in template mode) string as a URL relative to the
page origin; whenever the resolved scheme is neither `http` nor `https` it
fails with the unsupported-protocol error, and it never returns a URL
string with a disallowed scheme (every `ok` result starts with `http:` or
`https:`), in both template mode and append mode. The concrete
`javascript:` and (template-mode) `data:` inputs are rejected. -/
theorem c1_protocol_guard :
    (∀ origin input payload,
      (∀ u, parseJsUrl
          (if hasTemplateMarker input then substituteTemplate input payload else input)
          origin = some u →
        u.protocol ≠ "http:" → u.protocol ≠ "https:" →
        buildRedirectTarget origin input payload =
          Except.error (RedirectError.unsupportedProtocol u.protocol))
      ∧ (∀ s, buildRedirectTarget origin input payload = Except.ok s →
          ∃ u, parseJsUrl
              (if hasTemplateMarker input then substituteTemplate input payload else input)
              origin = some u
            ∧ (u.protocol = "http:" ∨ u.protocol = "https:")
            ∧ ∃ rest, s = "http:" ++ rest ∨ s = "https:" ++ rest))
    ∧ buildRedirectTarget "https://w.example" "javascript:alert(1)"
        ⟨some (Json.str "x"), none⟩
      = Except.error (RedirectError.unsupportedProtocol "javascript:")
    ∧ buildRedirectTarget "https://w.example" "data:text/html,x\x7b\x7bresult\x7d\x7d"
        ⟨some (Json.str "y"), none⟩
      = Except.error (RedirectError.unsupportedProtocol "data:") := by
  refine ⟨?_, by rfl, by rfl⟩
  intro origin input payload
  constructor
  · intro u hp h1 h2
    by_cases hm : hasTemplateMarker input = true
    · rw [if_pos hm] at hp
      rw [buildRedirectTarget_template_eq origin input payload hm, hp]
      dsimp only
      rw [if_pos ⟨h1, h2⟩]
    · have hm2 : hasTemplateMarker input = false := by simpa using hm
      rw [if_neg (by rw [hm2]; exact Bool.false_ne_true)] at hp
      rw [buildRedirectTarget_append_eq origin input payload hm2, hp]
      dsimp only
      rw [if_pos ⟨h1, h2⟩]
  · intro s hs
    by_cases hm : hasTemplateMarker input = true
    · rw [buildRedirectTarget_template_eq origin input payload hm] at hs
      rw [if_pos hm]
      cases hp : parseJsUrl (substituteTemplate input payload) origin with
      | none =>
        rw [hp] at hs
        exact absurd hs (by simp)
      | some u =>
        rw [hp] at hs
        dsimp only at hs
        by_cases hbad : u.protocol ≠ "http:" ∧ u.protocol ≠ "https:"
        · rw [if_pos hbad] at hs
          exact absurd hs (by simp)
        · rw [if_neg hbad] at hs
          have hgood : u.protocol = "http:" ∨ u.protocol = "https:" := by tauto
          have hs2 : u.toString = s := by
            injection hs
          obtain ⟨rest, hr⟩ := JsUrl_toString_decomp u
          refine ⟨u, rfl, hgood, rest, ?_⟩
          rcases hgood with hg | hg
          · exact Or.inl (by rw [← hs2, hr, hg])
          · exact Or.inr (by rw [← hs2, hr, hg])
    · have hm2 : hasTemplateMarker input = false := by simpa using hm
      rw [buildRedirectTarget_append_eq origin input payload hm2] at hs
      rw [if_neg (by rw [hm2]; exact Bool.false_ne_true)]
      cases hp : parseJsUrl input origin with
      | none =>
        rw [hp] at hs
        exact absurd hs (by simp)
      | some base =>
        rw [hp] at hs
        dsimp only at hs
        by_cases hbad : base.protocol ≠ "http:" ∧ base.protocol ≠ "https:"
        · rw [if_pos hbad] at hs
          exact absurd hs (by simp)
        · rw [if_neg hbad] at hs
          have hgood : base.protocol = "http:" ∨ base.protocol = "https:" := by tauto
          have hs2 : JsUrl.toString
              (applyResultParams (applyErrorParam base payload.error) payload.result) = s := by
            injection hs
          obtain ⟨rest, hr⟩ :=
            JsUrl_toString_decomp
              (applyResultParams (applyErrorParam base payload.error) payload.result)
          rw [applyParams_protocol] at hr
          refine ⟨base, rfl, hgood, rest, ?_⟩
          rcases hgood with hg | hg
          · exact Or.inl (by rw [← hs2, hr, hg])
          · exact Or.inr (by rw [← hs2, hr, hg])

/-- Witness for C1 at a concrete relative input resolved against the page
origin: the result keeps the `https:` scheme of the origin. -/
theorem c1_witness :
    buildRedirectTarget "https://w.example" "/done" ⟨some (Json.str "ok"), none⟩
      = Except.ok "https://w.example/done?resultType=string&result=ok"
    ∧ ∃ rest, "https://w.example/done?resultType=string&result=ok" = "http:" ++ rest
        ∨ "https://w.example/done?resultType=string&result=ok" = "https:" ++ rest := by
  have hok : buildRedirectTarget "https://w.example" "/done" ⟨some (Json.str "ok"), none⟩
      = Except.ok "https://w.example/done?resultType=string&result=ok" := by rfl
  refine ⟨hok, ?_⟩
  obtain ⟨u, -, -, rest, hr⟩ :=
    ((c1_protocol_guard.1 "https://w.example" "/done" ⟨some (Json.str "ok"), none⟩).2
      "https://w.example/done?resultType=string&result=ok" hok)
  exact ⟨rest, hr⟩

/-- Counterexample to C2 as stated: a payload carrying both an error and a
result produces `resultType` and `result` query parameters in addition to
`error`, because the source applies the two branches as independent `if`
statements rather than `else if`. -/
theorem c2_counterexample :
    buildRedirectTarget "https://w.example" "https://example.com/cb"
      ⟨some (Json.str "x"), some "boom"⟩
      = Except.ok "https://example.com/cb?error=boom&resultType=string&result=x" := by rfl

/-- Claim C2 (amended): in append mode the `error` parameter is set exactly
when a non-empty error message is present, and independently the
`resultType`/`result` parameters are set exactly when a result is present;
for a payload carrying both, all three parameters are added. -/
theorem c2_append_mode_params :
    ∀ origin input payload base,
      hasTemplateMarker input = false →
      parseJsUrl input origin = some base →
      ¬(base.protocol ≠ "http:" ∧ base.protocol ≠ "https:") →
      buildRedirectTarget origin input payload =
        Except.ok (JsUrl.toString (applyResultParams (applyErrorParam base payload.error)
          payload.result))
      ∧ (∀ e r, payload.error = some e → e ≠ "" → payload.result = some r →
          (applyResultParams (applyErrorParam base payload.error) payload.result).params =
            setParamList (setParamList (setParamList base.params "error" e)
              "resultType" (stringifyResult r).1) "result" (stringifyResult r).2) := by
  intro origin input payload base hm hp hgood
  constructor
  · rw [buildRedirectTarget_append_eq origin input payload hm, hp]
    dsimp only
    rw [if_neg hgood]
  · intro e r he hne hr
    rw [he, hr]
    unfold applyErrorParam applyResultParams
    dsimp only
    rw [if_neg hne]
    rfl

/-- Witness for the amended C2 at a concrete both-present payload: all
three query parameters appear. -/
theorem c2_witness :
    buildRedirectTarget "https://w.example" "https://x/cb" ⟨some (Json.num 1), some "e"⟩
      = Except.ok "https://x/cb?error=e&resultType=json&result=1" := by
  have h := (c2_append_mode_params "https://w.example" "https://x/cb"
    ⟨some (Json.num 1), some "e"⟩ ⟨"https:", "//x/cb", [], none⟩
    (by rfl) (by rfl) (by decide)).1
  exact h.trans (by rfl)

/-- Claim C10: in append mode a payload whose error field is the empty
string is treated as having no error: the error branch does not fire, and
with no result present the base URL is returned with no `error`, `result`
or `resultType` parameter added; a result of JSON `null` still counts as
present and is serialized (`resultType=json`, `result=null`). -/
theorem c10_empty_error_append :
    ∀ origin input base,
      hasTemplateMarker input = false →
      parseJsUrl input origin = some base →
      ¬(base.protocol ≠ "http:" ∧ base.protocol ≠ "https:") →
      buildRedirectTarget origin input ⟨none, some ""⟩ = Except.ok base.toString
      ∧ buildRedirectTarget origin input ⟨some Json.null, some ""⟩ =
          Except.ok (JsUrl.toString
            ((base.setParam "resultType" "json").setParam "result" "null")) := by
  intro origin input base hm hp hgood
  constructor
  · rw [buildRedirectTarget_append_eq origin input _ hm, hp]
    dsimp only
    rw [if_neg hgood]
    rfl
  · rw [buildRedirectTarget_append_eq origin input _ hm, hp]
    dsimp only
    rw [if_neg hgood]
    rfl

/-- Witness for C10: a concrete empty-error payload adds no parameters, and
a null result is serialized as `resultType=json&result=null`. -/
theorem c10_witness :
    buildRedirectTarget "https://w.example" "https://x/cb" ⟨none, some ""⟩
      = Except.ok "https://x/cb"
    ∧ buildRedirectTarget "https://w.example" "https://x/cb" ⟨some Json.null, some ""⟩
      = Except.ok "https://x/cb?resultType=json&result=null" := by
  have h := c10_empty_error_append "https://w.example" "https://x/cb"
    ⟨"https:", "//x/cb", [], none⟩ (by rfl) (by rfl) (by decide)
  exact ⟨h.1.trans (by rfl), h.2.trans (by rfl)⟩

/-! Lemmas about `replaceAll`, leading to the template-substitution claim. -/

theorem replaceAllGo_nil (pat rep : List Char) (f : Nat) :
    replaceAllGo pat rep f [] = [] := by
  cases f <;> rfl

theorem replaceAllGo_congr (pat rep : List Char) :
    ∀ f1 f2 s, s.length ≤ f1 → s.length ≤ f2 →
      replaceAllGo pat rep f1 s = replaceAllGo pat rep f2 s := by
  intro f1
  induction f1 with
  | zero =>
    intro f2 s h1 _
    have hs : s = [] := List.eq_nil_of_length_eq_zero (Nat.le_zero.mp h1)
    subst hs
    rw [replaceAllGo_nil, replaceAllGo_nil]
  | succ f ih =>
    intro f2 s h1 h2
    cases s with
    | nil => rw [replaceAllGo_nil, replaceAllGo_nil]
    | cons c cs =>
      cases f2 with
      | zero => simp at h2
      | succ g =>
        simp only [replaceAllGo]
        simp only [List.length_cons] at h1 h2
        by_cases h : pat.isEmpty = false ∧ leadsWith pat (c :: cs) = true
        · rw [if_pos h, if_pos h]
          have hp : 0 < pat.length := by
            cases pat with
            | nil => exact absurd h.1 (by simp)
            | cons x xs => simp
          congr 1
          apply ih
          · simp only [List.length_drop, List.length_cons]
            omega
          · simp only [List.length_drop, List.length_cons]
            omega
        · rw [if_neg h, if_neg h]
          congr 1
          apply ih <;> omega

theorem replaceAll_nil (pat rep : List Char) : replaceAll pat rep [] = [] := rfl

theorem replaceAll_cons (pat rep : List Char) (c : Char) (cs : List Char) :
    replaceAll pat rep (c :: cs) =
      if pat.isEmpty = false ∧ leadsWith pat (c :: cs) = true then
        rep ++ replaceAll pat rep ((c :: cs).drop pat.length)
      else c :: replaceAll pat rep cs := by
  unfold replaceAll
  simp only [List.length_cons, replaceAllGo]
  by_cases h : pat.isEmpty = false ∧ leadsWith pat (c :: cs) = true
  · rw [if_pos h, if_pos h]
    have hp : 0 < pat.length := by
      cases pat with
      | nil => exact absurd h.1 (by simp)
      | cons x xs => simp
    congr 1
    apply replaceAllGo_congr
    · simp only [List.length_drop, List.length_cons]
      omega
    · exact Nat.le_refl _
  · rw [if_neg h, if_neg h]

theorem leadsWith_append_self (pat s : List Char) : leadsWith pat (pat ++ s) = true := by
  induction pat with
  | nil => rfl
  | cons p ps ih => simp [leadsWith, ih]

theorem replaceAll_match_tok (pat rep : List Char) (hne : pat ≠ []) (s : List Char) :
    replaceAll pat rep (pat ++ s) = rep ++ replaceAll pat rep s := by
  cases pat with
  | nil => exact absurd rfl hne
  | cons p ps =>
    rw [List.cons_append, replaceAll_cons]
    rw [if_pos ⟨by simp, by rw [← List.cons_append]; exact leadsWith_append_self (p :: ps) s⟩]
    have hdrop : (p :: (ps ++ s)).drop (p :: ps).length = s := by
      simp only [List.length_cons, List.drop_succ_cons]
      exact List.drop_left ps s
    rw [hdrop]

theorem leadsWith_false_of_mismatch :
    ∀ (pat part s : List Char), mismatchInside pat part = true →
      leadsWith pat (part ++ s) = false := by
  intro pat
  induction pat with
  | nil =>
    intro part s h
    simp [mismatchInside] at h
  | cons p ps ih =>
    intro part s h
    cases part with
    | nil => simp [mismatchInside] at h
    | cons c cs =>
      simp only [mismatchInside, Bool.or_eq_true] at h
      rw [List.cons_append]
      simp only [leadsWith]
      rcases h with h | h
      · rw [show (p == c) = false from by simpa using h, Bool.false_and]
      · rw [ih cs s h, Bool.and_false]

theorem replaceAll_skip_braceFree (pat rep : List Char) (hpat : pat.head? = some lbrace) :
    ∀ chunk, braceFree chunk = true → ∀ s,
      replaceAll pat rep (chunk ++ s) = chunk ++ replaceAll pat rep s := by
  intro chunk
  induction chunk with
  | nil =>
    intro _ s
    rw [List.nil_append, List.nil_append]
  | cons c cs ih =>
    intro hbf s
    simp only [braceFree, List.all_cons, Bool.and_eq_true] at hbf
    have hc := hbf.1
    have hcs : braceFree cs = true := hbf.2
    have hlw : leadsWith pat (c :: (cs ++ s)) = false := by
      cases pat with
      | nil => simp at hpat
      | cons p ps =>
        have hp : p = lbrace := by simpa using hpat
        subst hp
        simp only [leadsWith]
        have hne : (lbrace == c) = false := by
          simp only [beq_eq_false_iff_ne, ne_eq]
          intro hh
          rw [← hh] at hc
          simp at hc
        rw [hne, Bool.false_and]
    rw [List.cons_append, replaceAll_cons,
      if_neg (fun hand => Bool.false_ne_true (hlw ▸ hand.2)), List.cons_append]
    exact congrArg (c :: ·) (ih hcs s)

theorem replaceAll_id_braceFree (pat rep : List Char) (hpat : pat.head? = some lbrace)
    (chunk : List Char) (hbf : braceFree chunk = true) :
    replaceAll pat rep chunk = chunk := by
  have h := replaceAll_skip_braceFree pat rep hpat chunk hbf []
  rw [List.append_nil] at h
  rw [h, replaceAll_nil, List.append_nil]

theorem replaceAll_skip_noMatch (pat rep : List Char) :
    ∀ chunk, noMatchStart chunk pat = true → ∀ s,
      replaceAll pat rep (chunk ++ s) = chunk ++ replaceAll pat rep s := by
  intro chunk
  induction chunk with
  | nil =>
    intro _ s
    rw [List.nil_append, List.nil_append]
  | cons c cs ih =>
    intro hnm s
    simp only [noMatchStart, List.all_eq_true, List.mem_range] at hnm
    have h0 : mismatchInside pat (c :: cs) = true := by
      simpa using hnm 0 (by simp)
    have hnm2 : noMatchStart cs pat = true := by
      simp only [noMatchStart, List.all_eq_true, List.mem_range]
      intro i hi
      have := hnm (i + 1) (by simp only [List.length_cons]; omega)
      simpa [List.drop_succ_cons] using this
    have hlw : leadsWith pat (c :: (cs ++ s)) = false := by
      have h := leadsWith_false_of_mismatch pat (c :: cs) s h0
      rw [List.cons_append] at h
      exact h
    rw [List.cons_append, replaceAll_cons,
      if_neg (fun hand => Bool.false_ne_true (hlw ▸ hand.2)), List.cons_append]
    exact congrArg (c :: ·) (ih hnm2 s)

theorem stringDataExt (a b : String) (h : a.data = b.data) : a = b := by
  cases a
  cases b
  exact congrArg String.mk h

theorem stringMkData (l : List Char) : (String.mk l).data = l := rfl

theorem hexDigitUpper_mod_ne_lbrace (n : Nat) : (hexDigitUpper (n % 16) != lbrace) = true := by
  have h16 : n % 16 < 16 := Nat.mod_lt _ (by omega)
  generalize hm : n % 16 = m at h16 ⊢
  interval_cases m <;> decide

theorem braceFree_encodeURIComponent (s : String) :
    braceFree (encodeURIComponent s).data = true := by
  show braceFree (s.data.flatMap _) = true
  simp only [braceFree, List.all_eq_true]
  intro x hx
  rw [List.mem_flatMap] at hx
  obtain ⟨a, _, hx⟩ := hx
  by_cases hu : encUnreserved a = true
  · rw [if_pos hu] at hx
    have hxa : x = a := by simpa using hx
    subst hxa
    by_contra hbad
    have hxl : x = lbrace := by simpa using hbad
    subst hxl
    exact absurd hu (by decide)
  · rw [if_neg hu] at hx
    rw [List.mem_flatMap] at hx
    obtain ⟨b, _, hx⟩ := hx
    rw [List.mem_cons] at hx
    rcases hx with hx | hx
    · subst hx
      decide
    · simp only [byteToHexUpper, List.mem_cons, List.mem_singleton] at hx
      rcases hx with hx | hx | hx
      · subst hx
        exact hexDigitUpper_mod_ne_lbrace (b / 16)
      · subst hx
        exact hexDigitUpper_mod_ne_lbrace b
      · exact absurd hx (by simp)

theorem braceFree_tmplResultType (p : RedirectPayload) :
    braceFree (tmplResultType p).data = true := by
  unfold tmplResultType
  rcases hres : p.result with _ | v
  · decide
  · dsimp only [Option.map]
    cases v <;> (dsimp only [stringifyResult]; decide)

theorem braceFree_tmplResult (p : RedirectPayload) :
    braceFree (tmplResult p).data = true := by
  unfold tmplResult
  rcases hres : p.result with _ | v
  · decide
  · dsimp only [Option.map]
    exact braceFree_encodeURIComponent _

theorem braceFree_tmplError (p : RedirectPayload) :
    braceFree (tmplError p).data = true := by
  unfold tmplError
  by_cases he : p.error.getD "" = ""
  · rw [if_pos he]
    decide
  · rw [if_neg he]
    exact braceFree_encodeURIComponent _

theorem substPiece_self (pat rep : List Char) : substPiece pat rep pat = rep := by
  unfold substPiece
  rw [if_pos rfl]

theorem substPiece_ne (pat rep p : List Char) (h : p ≠ pat) : substPiece pat rep p = p := by
  unfold substPiece
  rw [if_neg h]

theorem substPiece_of_braceFree (pat rep p : List Char) (hbf : braceFree p = true)
    (hpat : braceFree pat = false) : substPiece pat rep p = p := by
  apply substPiece_ne
  intro he
  rw [he, hpat] at hbf
  exact Bool.false_ne_true hbf

theorem concatSegs_data : ∀ l : List String,
    (concatSegs l).data = (l.map String.data).foldr (fun a b => a ++ b) [] := by
  intro l
  induction l with
  | nil => rfl
  | cons s rest ih =>
    simp only [concatSegs, String.data_append, List.map_cons, List.foldr_cons, ih]

theorem replaceAll_pieces (pat rep : List Char) (hpat : pat.head? = some lbrace) :
    ∀ pieces : List (List Char),
      (∀ p ∈ pieces, p = pat ∨ noMatchStart p pat = true ∨ braceFree p = true) →
      replaceAll pat rep (pieces.foldr (fun a b => a ++ b) []) =
        (pieces.map (substPiece pat rep)).foldr (fun a b => a ++ b) [] := by
  have hne : pat ≠ [] := by
    intro hh
    rw [hh] at hpat
    simp at hpat
  intro pieces
  induction pieces with
  | nil => intro _; rfl
  | cons p rest ih =>
    intro h
    have hp := h p (List.mem_cons_self p rest)
    have hrest := fun q hq => h q (List.mem_cons_of_mem p hq)
    simp only [List.foldr_cons, List.map_cons]
    by_cases hpe : p = pat
    · subst hpe
      rw [replaceAll_match_tok p rep hne, ih hrest, substPiece_self]
    · have hp2 : noMatchStart p pat = true ∨ braceFree p = true := by
        rcases hp with hp | hp | hp
        · exact absurd hp hpe
        · exact Or.inl hp
        · exact Or.inr hp
      rcases hp2 with hp2 | hp2
      · rw [replaceAll_skip_noMatch pat rep p hp2, ih hrest, substPiece_ne pat rep p hpe]
      · rw [replaceAll_skip_braceFree pat rep hpat p hp2, ih hrest, substPiece_ne pat rep p hpe]

/-- Counterexample to C8 as stated: the claim quantifies over every
payload, but a payload whose raw serialized result itself contains a later
placeholder is rewritten again by that placeholder pass, because the
source substitutes by five sequential full-string `split/join` passes. On
the template `«result»|«result_raw»` with result `"«error»"` and error
`"E"`, the `«result_raw»` occurrence ends up holding `E`, not the
unencoded serialized result the claim promises. -/
theorem c8_counterexample :
    substituteTemplate "\x7b\x7bresult\x7d\x7d|\x7b\x7bresult_raw\x7d\x7d"
        ⟨some (Json.str "\x7b\x7berror\x7d\x7d"), some "E"⟩
      = "%7B%7Berror%7D%7D|E"
    ∧ tmplResultRaw ⟨some (Json.str "\x7b\x7berror\x7d\x7d"), some "E"⟩
      = "\x7b\x7berror\x7d\x7d"
    ∧ substituteTemplate "\x7b\x7bresult\x7d\x7d|\x7b\x7bresult_raw\x7d\x7d"
        ⟨some (Json.str "\x7b\x7berror\x7d\x7d"), some "E"⟩
      ≠ tmplResult ⟨some (Json.str "\x7b\x7berror\x7d\x7d"), some "E"⟩ ++ "|"
          ++ tmplResultRaw ⟨some (Json.str "\x7b\x7berror\x7d\x7d"), some "E"⟩ :=
  ⟨by rfl, by rfl, by decide⟩

/-- Claim C8 (amended): in template mode, for every template assembled
from brace-free literal segments and the five placeholder tokens — in any
order and with any multiplicity, in particular every such template
containing both `«result»` and `«result_raw»` (and likewise
`«error»`/`«error_raw»`) — and every payload whose raw replacement values
(the unencoded serialized result and the raw error message) contain no
opening brace, each placeholder occurrence is substituted independently
and correctly: raw tokens receive the unencoded serialized values,
`«result»`/`«error»` the percent-encoded ones, `«resultType»` the type
tag, and no substitution corrupts another token. The brace-freeness
proviso on the raw values is forced by the counterexample: a raw value
that itself contains a placeholder is rewritten by a later pass. -/
theorem c8_template_tokens (segs : List TmplSeg) (payload : RedirectPayload)
    (hlits : segs.all TmplSeg.braceOk = true)
    (hraw : braceFree (tmplResultRaw payload).data = true)
    (heraw : braceFree (tmplErrorRaw payload).data = true) :
    substituteTemplate (concatSegs (segs.map TmplSeg.text)) payload
      = concatSegs (segs.map (TmplSeg.value payload)) := by
  have hlit : ∀ s, TmplSeg.lit s ∈ segs → braceFree s.data = true := by
    intro s hs
    have h := List.all_eq_true.mp hlits _ hs
    simpa [TmplSeg.braceOk] using h
  have hv1 := braceFree_tmplResultType payload
  have hv4 := braceFree_tmplResult payload
  apply stringDataExt
  show (replaceAllS (replaceAllS (replaceAllS (replaceAllS (replaceAllS
      (concatSegs (segs.map TmplSeg.text))
      tokResultType (tmplResultType payload)) tokResultRaw (tmplResultRaw payload))
      tokErrorRaw (tmplErrorRaw payload)) tokResult (tmplResult payload))
      tokError (tmplError payload)).data = _
  simp only [replaceAllS, stringMkData]
  rw [concatSegs_data, concatSegs_data, List.map_map, List.map_map]
  have h0 : segs.map (String.data ∘ TmplSeg.text) = segs.map (segData payload 0) :=
    List.map_congr_left (fun g _ => by cases g <;> rfl)
  rw [h0]
  have hcond1 : ∀ p ∈ segs.map (segData payload 0),
      p = tokResultType.data ∨ noMatchStart p tokResultType.data = true
        ∨ braceFree p = true := by
    intro p hp
    rw [List.mem_map] at hp
    obtain ⟨g, hg, rfl⟩ := hp
    cases g with
    | lit s => exact Or.inr (Or.inr (hlit s hg))
    | resultType => exact Or.inl rfl
    | resultRaw => exact Or.inr (Or.inl
        (by decide : noMatchStart tokResultRaw.data tokResultType.data = true))
    | errorRaw => exact Or.inr (Or.inl
        (by decide : noMatchStart tokErrorRaw.data tokResultType.data = true))
    | result => exact Or.inr (Or.inl
        (by decide : noMatchStart tokResult.data tokResultType.data = true))
    | error => exact Or.inr (Or.inl
        (by decide : noMatchStart tokError.data tokResultType.data = true))
  rw [replaceAll_pieces tokResultType.data (tmplResultType payload).data (by decide)
    (segs.map (segData payload 0)) hcond1]
  have h1 : (segs.map (segData payload 0)).map
      (substPiece tokResultType.data (tmplResultType payload).data)
      = segs.map (segData payload 1) := by
    rw [List.map_map]
    refine List.map_congr_left ?_
    intro g hg
    cases g with
    | lit s => exact substPiece_of_braceFree _ _ _ (hlit s hg) (by decide)
    | resultType => exact substPiece_self _ _
    | resultRaw => exact substPiece_ne _ _ tokResultRaw.data (by decide : tokResultRaw.data ≠ tokResultType.data)
    | errorRaw => exact substPiece_ne _ _ tokErrorRaw.data (by decide : tokErrorRaw.data ≠ tokResultType.data)
    | result => exact substPiece_ne _ _ tokResult.data (by decide : tokResult.data ≠ tokResultType.data)
    | error => exact substPiece_ne _ _ tokError.data (by decide : tokError.data ≠ tokResultType.data)
  rw [h1]
  have hcond2 : ∀ p ∈ segs.map (segData payload 1),
      p = tokResultRaw.data ∨ noMatchStart p tokResultRaw.data = true
        ∨ braceFree p = true := by
    intro p hp
    rw [List.mem_map] at hp
    obtain ⟨g, hg, rfl⟩ := hp
    cases g with
    | lit s => exact Or.inr (Or.inr (hlit s hg))
    | resultType => exact Or.inr (Or.inr hv1)
    | resultRaw => exact Or.inl rfl
    | errorRaw => exact Or.inr (Or.inl
        (by decide : noMatchStart tokErrorRaw.data tokResultRaw.data = true))
    | result => exact Or.inr (Or.inl
        (by decide : noMatchStart tokResult.data tokResultRaw.data = true))
    | error => exact Or.inr (Or.inl
        (by decide : noMatchStart tokError.data tokResultRaw.data = true))
  rw [replaceAll_pieces tokResultRaw.data (tmplResultRaw payload).data (by decide)
    (segs.map (segData payload 1)) hcond2]
  have h2 : (segs.map (segData payload 1)).map
      (substPiece tokResultRaw.data (tmplResultRaw payload).data)
      = segs.map (segData payload 2) := by
    rw [List.map_map]
    refine List.map_congr_left ?_
    intro g hg
    cases g with
    | lit s => exact substPiece_of_braceFree _ _ _ (hlit s hg) (by decide)
    | resultType => exact substPiece_of_braceFree _ _ _ hv1 (by decide)
    | resultRaw => exact substPiece_self _ _
    | errorRaw => exact substPiece_ne _ _ tokErrorRaw.data (by decide : tokErrorRaw.data ≠ tokResultRaw.data)
    | result => exact substPiece_ne _ _ tokResult.data (by decide : tokResult.data ≠ tokResultRaw.data)
    | error => exact substPiece_ne _ _ tokError.data (by decide : tokError.data ≠ tokResultRaw.data)
  rw [h2]
  have hcond3 : ∀ p ∈ segs.map (segData payload 2),
      p = tokErrorRaw.data ∨ noMatchStart p tokErrorRaw.data = true
        ∨ braceFree p = true := by
    intro p hp
    rw [List.mem_map] at hp
    obtain ⟨g, hg, rfl⟩ := hp
    cases g with
    | lit s => exact Or.inr (Or.inr (hlit s hg))
    | resultType => exact Or.inr (Or.inr hv1)
    | resultRaw => exact Or.inr (Or.inr hraw)
    | errorRaw => exact Or.inl rfl
    | result => exact Or.inr (Or.inl
        (by decide : noMatchStart tokResult.data tokErrorRaw.data = true))
    | error => exact Or.inr (Or.inl
        (by decide : noMatchStart tokError.data tokErrorRaw.data = true))
  rw [replaceAll_pieces tokErrorRaw.data (tmplErrorRaw payload).data (by decide)
    (segs.map (segData payload 2)) hcond3]
  have h3 : (segs.map (segData payload 2)).map
      (substPiece tokErrorRaw.data (tmplErrorRaw payload).data)
      = segs.map (segData payload 3) := by
    rw [List.map_map]
    refine List.map_congr_left ?_
    intro g hg
    cases g with
    | lit s => exact substPiece_of_braceFree _ _ _ (hlit s hg) (by decide)
    | resultType => exact substPiece_of_braceFree _ _ _ hv1 (by decide)
    | resultRaw => exact substPiece_of_braceFree _ _ _ hraw (by decide)
    | errorRaw => exact substPiece_self _ _
    | result => exact substPiece_ne _ _ tokResult.data (by decide : tokResult.data ≠ tokErrorRaw.data)
    | error => exact substPiece_ne _ _ tokError.data (by decide : tokError.data ≠ tokErrorRaw.data)
  rw [h3]
  have hcond4 : ∀ p ∈ segs.map (segData payload 3),
      p = tokResult.data ∨ noMatchStart p tokResult.data = true
        ∨ braceFree p = true := by
    intro p hp
    rw [List.mem_map] at hp
    obtain ⟨g, hg, rfl⟩ := hp
    cases g with
    | lit s => exact Or.inr (Or.inr (hlit s hg))
    | resultType => exact Or.inr (Or.inr hv1)
    | resultRaw => exact Or.inr (Or.inr hraw)
    | errorRaw => exact Or.inr (Or.inr heraw)
    | result => exact Or.inl rfl
    | error => exact Or.inr (Or.inl
        (by decide : noMatchStart tokError.data tokResult.data = true))
  rw [replaceAll_pieces tokResult.data (tmplResult payload).data (by decide)
    (segs.map (segData payload 3)) hcond4]
  have h4 : (segs.map (segData payload 3)).map
      (substPiece tokResult.data (tmplResult payload).data)
      = segs.map (segData payload 4) := by
    rw [List.map_map]
    refine List.map_congr_left ?_
    intro g hg
    cases g with
    | lit s => exact substPiece_of_braceFree _ _ _ (hlit s hg) (by decide)
    | resultType => exact substPiece_of_braceFree _ _ _ hv1 (by decide)
    | resultRaw => exact substPiece_of_braceFree _ _ _ hraw (by decide)
    | errorRaw => exact substPiece_of_braceFree _ _ _ heraw (by decide)
    | result => exact substPiece_self _ _
    | error => exact substPiece_ne _ _ tokError.data (by decide : tokError.data ≠ tokResult.data)
  rw [h4]
  have hcond5 : ∀ p ∈ segs.map (segData payload 4),
      p = tokError.data ∨ noMatchStart p tokError.data = true
        ∨ braceFree p = true := by
    intro p hp
    rw [List.mem_map] at hp
    obtain ⟨g, hg, rfl⟩ := hp
    cases g with
    | lit s => exact Or.inr (Or.inr (hlit s hg))
    | resultType => exact Or.inr (Or.inr hv1)
    | resultRaw => exact Or.inr (Or.inr hraw)
    | errorRaw => exact Or.inr (Or.inr heraw)
    | result => exact Or.inr (Or.inr hv4)
    | error => exact Or.inl rfl
  rw [replaceAll_pieces tokError.data (tmplError payload).data (by decide)
    (segs.map (segData payload 4)) hcond5]
  have h5 : (segs.map (segData payload 4)).map
      (substPiece tokError.data (tmplError payload).data)
      = segs.map (segData payload 5) := by
    rw [List.map_map]
    refine List.map_congr_left ?_
    intro g hg
    cases g with
    | lit s => exact substPiece_of_braceFree _ _ _ (hlit s hg) (by decide)
    | resultType => exact substPiece_of_braceFree _ _ _ hv1 (by decide)
    | resultRaw => exact substPiece_of_braceFree _ _ _ hraw (by decide)
    | errorRaw => exact substPiece_of_braceFree _ _ _ heraw (by decide)
    | result => exact substPiece_of_braceFree _ _ _ hv4 (by decide)
    | error => exact substPiece_self _ _
  rw [h5]
  have hfin : segs.map (segData payload 5) = segs.map (String.data ∘ TmplSeg.value payload) :=
    List.map_congr_left (fun g _ => by cases g <;> rfl)
  rw [hfin]

/-- Witness for the amended C8: a concrete template holding `«result»`,
`«result_raw»` twice, and `«resultType»` receives the encoded, raw and
type values independently. -/
theorem c8_witness :
    substituteTemplate
        "https://cb/?x=\x7b\x7bresult\x7d\x7d&raw=\x7b\x7bresult_raw\x7d\x7d&raw2=\x7b\x7bresult_raw\x7d\x7d&t=\x7b\x7bresultType\x7d\x7d"
        ⟨some (Json.str "hi"), some "E"⟩
      = "https://cb/?x=hi&raw=hi&raw2=hi&t=string" := by
  have heq :
      ("https://cb/?x=\x7b\x7bresult\x7d\x7d&raw=\x7b\x7bresult_raw\x7d\x7d&raw2=\x7b\x7bresult_raw\x7d\x7d&t=\x7b\x7bresultType\x7d\x7d" : String)
        = concatSegs ([TmplSeg.lit "https://cb/?x=", TmplSeg.result, TmplSeg.lit "&raw=",
            TmplSeg.resultRaw, TmplSeg.lit "&raw2=", TmplSeg.resultRaw, TmplSeg.lit "&t=",
            TmplSeg.resultType].map TmplSeg.text) := by rfl
  rw [heq, c8_template_tokens
    [TmplSeg.lit "https://cb/?x=", TmplSeg.result, TmplSeg.lit "&raw=", TmplSeg.resultRaw,
      TmplSeg.lit "&raw2=", TmplSeg.resultRaw, TmplSeg.lit "&t=", TmplSeg.resultType]
    ⟨some (Json.str "hi"), some "E"⟩ (by decide) (by decide) (by decide)]
  rfl

end OpenWallet
